import Mathlib

/-!
# TodoItem (webapp/src/components/todo_item/todo_item.jsx)

A shallow embedding of the `TodoItem` React component: its `useState` cells and
`useRef` timer handles are fields of `State`, every event handler is a pure function
on `State`, calls to the callback props are appended to the `calls` log, `setTimeout`
timers and unresolved promises are kept in explicit queues.

The parts of the JavaScript runtime the component relies on (`Date`, `String.trim`,
timers) are modelled after ECMAScript.
-/

namespace TodoItem

/-! ## JavaScript runtime: `Date` -/

/-- Milliseconds per day (ECMAScript `msPerDay`). -/
def msPerDay : Int := 86400000

/-- Largest magnitude of a valid time value (ECMAScript `TimeClip`). -/
def maxTime : Int := 8640000000000000

/-- ECMAScript `DayFromYear(y)`: day number of January 1st of year `y`. -/
def dayFromYear (y : Int) : Int :=
  365 * (y - 1970) + (y - 1969) / 4 - (y - 1901) / 100 + (y - 1601) / 400

/-- ECMAScript `InLeapYear`, as a function of the year. -/
def inLeapYear (y : Int) : Bool :=
  if y % 4 ≠ 0 then false
  else if y % 100 ≠ 0 then true
  else if y % 400 ≠ 0 then false
  else true

/-- ECMAScript `YearFromTime`, as a function of the day number: the largest `y`
with `dayFromYear y ≤ d` (see `yearFromDay_eq_iff`). -/
def yearFromDay (d : Int) : Int :=
  let y := 1970 + (400 * d) / 146097
  if d < dayFromYear y then y - 1
  else if dayFromYear (y + 1) ≤ d then y + 1
  else y

/-- Day within the year on which month `m` (0-based) starts; `m ≥ 12` gives the
length of the year.  This is the table of ECMAScript `MonthFromTime`. -/
def monthStart (leap : Bool) (m : Nat) : Int :=
  let l : Int := if leap then 1 else 0
  match m with
  | 0 => 0
  | 1 => 31
  | 2 => 59 + l
  | 3 => 90 + l
  | 4 => 120 + l
  | 5 => 151 + l
  | 6 => 181 + l
  | 7 => 212 + l
  | 8 => 243 + l
  | 9 => 273 + l
  | 10 => 304 + l
  | 11 => 334 + l
  | _ => 365 + l

/-- ECMAScript `DayWithinYear`. -/
def dayWithinYear (d : Int) : Int := d - dayFromYear (yearFromDay d)

/-- The table of ECMAScript `MonthFromTime`: the month (0-based) of day `w` within a
year, leap or not. -/
def monthOfYearDay (leap : Bool) (w : Int) : Nat :=
  if w < monthStart leap 1 then 0
  else if w < monthStart leap 2 then 1
  else if w < monthStart leap 3 then 2
  else if w < monthStart leap 4 then 3
  else if w < monthStart leap 5 then 4
  else if w < monthStart leap 6 then 5
  else if w < monthStart leap 7 then 6
  else if w < monthStart leap 8 then 7
  else if w < monthStart leap 9 then 8
  else if w < monthStart leap 10 then 9
  else if w < monthStart leap 11 then 10
  else 11

/-- ECMAScript `MonthFromTime` (0-based month), as a function of the day number. -/
def monthFromDay (d : Int) : Nat :=
  monthOfYearDay (inLeapYear (yearFromDay d)) (dayWithinYear d)

/-- ECMAScript `DateFromTime` (day of the month, 1-based). -/
def dateFromDay (d : Int) : Int :=
  dayWithinYear d - monthStart (inLeapYear (yearFromDay d)) (monthFromDay d) + 1

/-- Number of days of month `m` (0-based) of year `y`. -/
def daysInMonth (y : Int) (m : Nat) : Int :=
  monthStart (inLeapYear y) (m + 1) - monthStart (inLeapYear y) m

/-- ECMAScript `MakeDay(year, month, date)` for a month index in `0..11`. -/
def makeDay (y : Int) (m : Nat) (dt : Int) : Int :=
  dayFromYear y + monthStart (inLeapYear y) m + dt - 1

/-- ECMAScript `TimeClip`: `none` stands for `NaN`. -/
def timeClip (t : Int) : Option Int :=
  if -maxTime ≤ t ∧ t ≤ maxTime then some t else none

/-- The decimal digit character of `n % 10`. -/
def digitChar (n : Nat) : Char := Char.ofNat (48 + n % 10)

def pad2 (n : Nat) : List Char := [digitChar (n / 10), digitChar n]

def pad3 (n : Nat) : List Char := [digitChar (n / 100), digitChar (n / 10), digitChar n]

def pad4 (n : Nat) : List Char :=
  [digitChar (n / 1000), digitChar (n / 100), digitChar (n / 10), digitChar n]

def pad6 (n : Nat) : List Char :=
  [digitChar (n / 100000), digitChar (n / 10000), digitChar (n / 1000),
   digitChar (n / 100), digitChar (n / 10), digitChar n]

/-- Year of `Date.prototype.toISOString`: four digits for 0..9999, otherwise the
expanded form with a sign and six digits. -/
def isoYear (y : Int) : List Char :=
  if 0 ≤ y ∧ y ≤ 9999 then pad4 y.toNat
  else (if 0 ≤ y then '+' else '-') :: pad6 y.natAbs

/-- The `YYYY-MM-DD` part of the ISO format for year `y`, month `m` (1-based), day `d`. -/
def isoDate (y : Int) (m d : Nat) : List Char :=
  isoYear y ++ '-' :: pad2 m ++ '-' :: pad2 d

/-- The `HH:mm:ss.sssZ` part of the ISO format for `ms` milliseconds within the day. -/
def isoTime (ms : Nat) : List Char :=
  pad2 (ms / 3600000 % 24) ++ ':' :: pad2 (ms / 60000 % 60) ++ ':' :: pad2 (ms / 1000 % 60)
    ++ '.' :: pad3 (ms % 1000) ++ ['Z']

/-- Model of `new Date(t).toISOString()`; `none` when the call throws a `RangeError`
(time value out of range). -/
def toISOString (t : Int) : Option String :=
  match timeClip t with
  | none => none
  | some t =>
    let day := t / msPerDay
    some (String.mk (isoDate (yearFromDay day) (monthFromDay day + 1) (dateFromDay day).toNat
      ++ 'T' :: isoTime (t % msPerDay).toNat))

/-- Model of `s.split('T')[0]`: the text before the first `T`. -/
def splitT0 (s : String) : String := String.mk (s.data.takeWhile (fun c => c != 'T'))

/-- Value of a decimal digit character. -/
def digitVal (c : Char) : Option Nat :=
  if 48 ≤ c.toNat ∧ c.toNat ≤ 57 then some (c.toNat - 48) else none

/-- Reads a run of decimal digits. -/
def parseDigits (acc : Nat) : List Char → Option Nat
  | [] => some acc
  | c :: cs =>
    match digitVal c with
    | none => none
    | some d => parseDigits (10 * acc + d) cs

/-- Fields (year, month 1-based, day) of a string in one of the date-only forms
`YYYY-MM-DD` and `±YYYYYY-MM-DD` of the ECMAScript date-time string format. -/
def isoDateFields (s : List Char) : Option (Int × Nat × Nat) :=
  match s with
  | [y1, y2, y3, y4, h1, m1, m2, h2, d1, d2] =>
    if h1 = '-' ∧ h2 = '-' then
      match parseDigits 0 [y1, y2, y3, y4], parseDigits 0 [m1, m2], parseDigits 0 [d1, d2] with
      | some y, some m, some d => some ((y : Int), m, d)
      | _, _, _ => none
    else none
  | [sg, y1, y2, y3, y4, y5, y6, h1, m1, m2, h2, d1, d2] =>
    if (sg = '+' ∨ sg = '-') ∧ h1 = '-' ∧ h2 = '-' then
      match parseDigits 0 [y1, y2, y3, y4, y5, y6], parseDigits 0 [m1, m2],
          parseDigits 0 [d1, d2] with
      | some y, some m, some d =>
        if sg = '-' then (if y = 0 then none else some (-(y : Int), m, d))
        else some ((y : Int), m, d)
      | _, _, _ => none
    else none
  | _ => none

/-- What the runtime does outside the modelled fragment of the language. -/
structure Runtime where
  /-- `Date.parse` on strings that are not a calendar date in date-only form
  (other ISO forms, implementation-defined legacy formats). -/
  otherDateParse : String → Option Int

/-- Model of `new Date(s).getTime()` for a string `s`; `none` stands for `NaN`.
Date-only forms are interpreted as UTC midnight. -/
def dateParse (rt : Runtime) (s : String) : Option Int :=
  match isoDateFields s.data with
  | some (y, m, d) =>
    if 1 ≤ m ∧ m ≤ 12 ∧ 1 ≤ d ∧ (d : Int) ≤ daysInMonth y (m - 1) then
      timeClip (makeDay y (m - 1) d * msPerDay)
    else rt.otherDateParse s
  | none => rt.otherDateParse s

/-- A well-formed date-only string: `YYYY-MM-DD`, ten characters, naming a calendar
date. -/
def isDateOnly (s : String) : Bool :=
  match isoDateFields s.data with
  | some (y, m, d) =>
    s.data.length = 10 && 1 ≤ m && m ≤ 12 && 1 ≤ d && (d : Int) ≤ daysInMonth y (m - 1)
  | none => false

/-! ## JavaScript runtime: `String.prototype.trim` -/

/-- ECMAScript `WhiteSpace` and `LineTerminator` code points. -/
def isJsWhiteSpace (c : Char) : Bool :=
  let n := c.toNat
  n = 0x09 || n = 0x0A || n = 0x0B || n = 0x0C || n = 0x0D || n = 0x20 || n = 0xA0
    || n = 0x1680 || (0x2000 ≤ n && n ≤ 0x200A) || n = 0x2028 || n = 0x2029
    || n = 0x202F || n = 0x205F || n = 0x3000 || n = 0xFEFF

/-- Model of `s.trim()`. -/
def jsTrim (s : String) : String :=
  String.mk ((s.data.dropWhile isJsWhiteSpace).reverse.dropWhile isJsWhiteSpace).reverse

/-! ## Data model -/

/-- The `issue` prop.  An absent `user` is the empty string (both are falsy). -/
structure Issue where
  id : String
  message : String
  description : String
  create_at : Int
  priority : Nat
  due_at : Int
  user : String
  list : String
  position : Nat
  postPermalink : String
deriving DecidableEq, Repr

structure Comment where
  id : String
  username : String
  user_id : String
  message : String
  created_at : Int
deriving DecidableEq, Repr

/-- Which undo callback a toast carries. -/
inductive UndoKind where
  | undoCompleteTodo
  | undoRemoveTodo
deriving DecidableEq, Repr

/-- Invocations of the callback props. -/
inductive Call where
  | complete (id : String)
  | remove (id : String)
  | accept (id : String)
  | bump (id : String)
  | editIssue (id message description : String) (dueAt : Option Int) (priority : Nat)
  | openTodoToast (icon message : String) (undo : UndoKind)
  | openAssigneeModal (filter : String)
  | setEditingTodo (id : String)
  | fetchComments (id : String)
  | addComment (id text : String)
  | deleteComment (commentId : String)
deriving DecidableEq, Repr

/-- What a promise returned by `fetchComments`, `addComment` or `deleteComment`
resolves to: a value without error marker (for `fetchComments` the comment list),
or an object carrying `error`. -/
inductive Reply where
  | ok (data : List Comment)
  | error
deriving DecidableEq, Repr

/-- The continuation waiting on an unresolved promise. -/
inductive Pending where
  /-- The effect's `fetchComments(issue.id).then(...)`. -/
  | effectFetch
  /-- The `await addComment(issue.id, newComment)` of `handleAddComment`. -/
  | addResult
  /-- The `await deleteComment(commentId)` of `handleDeleteComment`. -/
  | deleteResult
  /-- The `await fetchComments(issue.id)` of `handleAddComment` and `handleDeleteComment`. -/
  | refetch
deriving DecidableEq, Repr

/-- A timer started by `setTimeout`; `call` is what its callback invokes. -/
structure Timer where
  handle : Nat
  deadline : Nat
  call : Call
deriving DecidableEq, Repr

/-- State of one mounted `TodoItem` together with its environment. -/
structure State where
  -- `useState` cells
  done : Bool
  editTodo : Bool
  message : String
  description : String
  hidden : Bool
  priority : Nat
  dueAt : String
  showComments : Bool
  comments : List Comment
  newComment : String
  loadingComments : Bool
  -- `useRef` cells
  completeTimeout : Option Nat
  removeTimeout : Option Nat
  -- environment
  now : Nat
  nextHandle : Nat
  timers : List Timer
  pending : List Pending
  calls : List Call
  /-- Handles of the timers that have fired, with the time of firing. -/
  fired : List (Nat × Nat)
deriving DecidableEq, Repr

/-! ## Mounting -/

/-- Initial value of the `dueAt` cell:
`issue.due_at ? new Date(issue.due_at).toISOString().split('T')[0] : ''`.
`none` when `toISOString` throws. -/
def dueAtInitial (due_at : Int) : Option String :=
  if due_at ≠ 0 then (toISOString due_at).map splitT0 else some ""

/-- Initial value of the `priority` cell: `issue.priority || 0`. -/
def priorityInitial (priority : Nat) : Nat :=
  if priority ≠ 0 then priority else 0

/-- The state after the first render, given the initial due-date draft. -/
def initialState (issue : Issue) (dueAt : String) : State where
  done := false
  editTodo := false
  message := issue.message
  description := issue.description
  hidden := false
  priority := priorityInitial issue.priority
  dueAt := dueAt
  showComments := false
  comments := []
  newComment := ""
  loadingComments := false
  completeTimeout := none
  removeTimeout := none
  now := 0
  nextHandle := 0
  timers := []
  pending := []
  calls := []
  fired := []

/-- First render of the component; `none` when the render throws. -/
def mount (issue : Issue) : Option State :=
  (dueAtInitial issue.due_at).map (initialState issue)

/-! ## Timers -/

/-- Model of `setTimeout(() => call, delay)`: returns the state with the timer queued;
the handle is `s.nextHandle`. -/
def setTimeout (call : Call) (delay : Nat) (s : State) : State :=
  { s with
    timers := s.timers ++ [{ handle := s.nextHandle, deadline := s.now + delay, call := call }]
    nextHandle := s.nextHandle + 1 }

/-- Model of `clearTimeout(ref.current)`. -/
def clearTimeout (h : Option Nat) (s : State) : State :=
  match h with
  | none => s
  | some h => { s with timers := s.timers.filter (fun t => t.handle != h) }

/-- Passage of `dt` milliseconds: every timer whose deadline has been reached fires,
in the order of creation (all delays are equal, so this is the order of deadlines). -/
def advance (dt : Nat) (s : State) : State :=
  let t := s.now + dt
  let due := s.timers.filter (fun tm => decide (tm.deadline ≤ t))
  { s with
    now := t
    timers := s.timers.filter (fun tm => !decide (tm.deadline ≤ t))
    calls := s.calls ++ due.map (fun tm => tm.call)
    fired := s.fired ++ due.map (fun tm => (tm.handle, tm.deadline)) }

/-! ## Handlers of the optimistic complete / remove actions -/

/-- The `markAsDone` prop of `CompleteButton`: `() => setDone(true)`. -/
def markAsDone (s : State) : State := { s with done := true }

def completeToast (issue : Issue) (s : State) : State :=
  let s1 := { s with
    calls := s.calls ++ [Call.openTodoToast "check" "Todo completed" UndoKind.undoCompleteTodo] }
  let s2 := { s1 with hidden := true }
  { setTimeout (Call.complete issue.id) 5000 s2 with completeTimeout := some s2.nextHandle }

def undoRemoveTodo (s : State) : State :=
  { clearTimeout s.removeTimeout s with hidden := false }

def undoCompleteTodo (s : State) : State :=
  { clearTimeout s.completeTimeout s with hidden := false, done := false }

def removeTodo (issue : Issue) (s : State) : State :=
  let s1 := { s with
    calls := s.calls ++
      [Call.openTodoToast "trash-can-outline" "Todo deleted" UndoKind.undoRemoveTodo] }
  let s2 := { s1 with hidden := true }
  { setTimeout (Call.remove issue.id) 5000 s2 with removeTimeout := some s2.nextHandle }

/-! ## Edit mode -/

/-- The due-date argument of `editIssue`: `dueAt ? new Date(dueAt).getTime() : 0`. -/
def dueAtTimestamp (rt : Runtime) (dueAt : String) : Option Int :=
  if dueAt ≠ "" then dateParse rt dueAt else some 0

def saveEditedTodo (rt : Runtime) (issue : Issue) (s : State) : State :=
  let s1 := { s with editTodo := false }
  { s1 with
    calls := s1.calls ++
      [Call.editIssue issue.id s1.message s1.description (dueAtTimestamp rt s1.dueAt)
        s1.priority] }

/-- A `keydown` event, as far as the handler looks at it. -/
structure KeyEvent where
  key : String
  shiftKey : Bool
deriving DecidableEq, Repr

def onKeyDown (rt : Runtime) (issue : Issue) (e : KeyEvent) (s : State) : State :=
  let s1 := if e.key = "Enter" ∧ !e.shiftKey then saveEditedTodo rt issue s else s
  if e.key = "Escape" then { s1 with editTodo := false } else s1

def editAssignee (issue : Issue) (s : State) : State :=
  { s with calls := s.calls ++ [Call.openAssigneeModal "", Call.setEditingTodo issue.id] }

/-! ## Comment panel -/

/-- The effect keyed on `[showComments, issue.id, fetchComments]`, as run after a
render in which `showComments` changed. -/
def commentsEffect (issue : Issue) (s : State) : State :=
  if s.showComments then
    { s with
      loadingComments := true
      calls := s.calls ++ [Call.fetchComments issue.id]
      pending := s.pending ++ [Pending.effectFetch] }
  else s

/-- Click on the comment toggle: `setShowComments(!showComments)`, then the effect. -/
def toggleComments (issue : Issue) (s : State) : State :=
  commentsEffect issue { s with showComments := !s.showComments }

/-- The handler `handleAddComment` up to its first `await`. -/
def handleAddComment (issue : Issue) (s : State) : State :=
  if jsTrim s.newComment = "" then s
  else
    { s with
      calls := s.calls ++ [Call.addComment issue.id s.newComment]
      pending := s.pending ++ [Pending.addResult] }

/-- The handler `handleDeleteComment` up to its first `await`. -/
def handleDeleteComment (commentId : String) (s : State) : State :=
  { s with
    calls := s.calls ++ [Call.deleteComment commentId]
    pending := s.pending ++ [Pending.deleteResult] }

/-- Runs the continuation `p` with the value `r` its promise resolved to. -/
def continueWith (issue : Issue) (p : Pending) (r : Reply) (s : State) : State :=
  match p with
  | Pending.effectFetch =>
    let s1 := { s with loadingComments := false }
    match r with
    | Reply.ok data => { s1 with comments := data }
    | Reply.error => s1
  | Pending.addResult =>
    match r with
    | Reply.ok _ =>
      { s with
        newComment := ""
        calls := s.calls ++ [Call.fetchComments issue.id]
        pending := s.pending ++ [Pending.refetch] }
    | Reply.error => s
  | Pending.deleteResult =>
    match r with
    | Reply.ok _ =>
      { s with
        calls := s.calls ++ [Call.fetchComments issue.id]
        pending := s.pending ++ [Pending.refetch] }
    | Reply.error => s
  | Pending.refetch =>
    match r with
    | Reply.ok data => { s with comments := data }
    | Reply.error => s

/-- The `i`-th unresolved promise resolves to `r`. -/
def resolve (issue : Issue) (i : Nat) (r : Reply) (s : State) : State :=
  match s.pending.get? i with
  | none => s
  | some p => continueWith issue p r { s with pending := s.pending.eraseIdx i }

/-! ## Derived rendering -/

/-- What the runtime does with `issue.position + 1` outside the modelled fragment of
the language: from 2^53 on the sum is rounded to a double, and large values are printed
rounded or in exponent form.  An argument of the model. -/
structure NumberRuntime where
  /-- The text of `issue.position + 1` in a string concatenation, for a position from
  2^53 on. -/
  unsafeSuccText : Nat → String

/-- The text of `(issue.position + 1)` in a string concatenation.  The position is a
JavaScript number with an integer value: below 2^53 the sum is exact and is printed as
its decimal numeral. -/
def positionText (nr : NumberRuntime) (position : Nat) : String :=
  if position < 9007199254740992 then toString (position + 1) else nr.unsafeSuccText position

/-- The value of `listPositionMessage` after the `if (issue.user)` block. -/
def listPositionMessage (nr : NumberRuntime) (issue : Issue) : String :=
  if issue.user ≠ "" then
    if issue.list = "" then
      "Accepted. On position " ++ positionText nr issue.position ++ "."
    else if issue.list = "in" then
      "In Inbox on position " ++ positionText nr issue.position ++ "."
    else if issue.list = "out" then
      ""
    else ""
  else ""

/-- The value of `createdMessage` after the `if (issue.user)` block. -/
def createdMessage (issue : Issue) : String :=
  if issue.user ≠ "" then
    if issue.list = "" then "Sent to " ++ issue.user
    else if issue.list = "in" then "Sent to " ++ issue.user
    else if issue.list = "out" then "Received from " ++ issue.user
    else "Created "
  else "Created "

/-- What `{listPositionMessage && listDiv}` renders: the text of `listDiv`, or nothing.
The expression sits in the `{!editTodo && (...)}` block of the item, so nothing is
rendered in edit mode. -/
def renderListDiv (nr : NumberRuntime) (issue : Issue) (s : State) : Option String :=
  if !s.editTodo then
    if listPositionMessage nr issue ≠ "" then some (listPositionMessage nr issue) else none
  else none

/-! ## Rendering: permissions, comment panel, action menu, creation date -/

/-- The permission predicates imported from `../../utils`, an argument of the model. -/
structure Permissions where
  canComplete : String → Bool
  canRemove : String → String → Bool
  canAccept : String → Bool
  canBump : String → String → Bool

/-- One element of `comments.map(...)`: the comment `c` it shows (key, user name, date
and message) and whether the delete icon `c.user_id === currentUserId && ...` is
rendered in it. -/
structure CommentItem where
  comment : Comment
  deleteIcon : Bool
deriving DecidableEq, Repr

/-- What `{showComments && (...)}` renders. -/
structure CommentsSection where
  /-- The text `Loading comments...`: `{loadingComments && ...}`. -/
  loadingPlaceholder : Bool
  /-- The comment items: `{!loadingComments && comments.map(...)}`. -/
  items : List CommentItem
  /-- The text `No comments yet.`: `{comments.length === 0 && ...}`. -/
  emptyPlaceholder : Bool
  /-- The value of the comment input. -/
  input : String
  /-- The `disabled` flag of the Post button: `!newComment.trim()`. -/
  postDisabled : Bool
deriving DecidableEq, Repr

def renderCommentsSection (currentUserId : String) (s : State) : Option CommentsSection :=
  if s.showComments then
    some {
      loadingPlaceholder := s.loadingComments
      items :=
        if !s.loadingComments then
          s.comments.map (fun c =>
            { comment := c, deleteIcon := decide (c.user_id = currentUserId) })
        else []
      emptyPlaceholder := decide (s.comments.length = 0)
      input := s.newComment
      postDisabled := decide (jsTrim s.newComment = "") }
  else none

/-- Whether the delete icon of the comment `c` is rendered. -/
def deleteIconRendered (currentUserId : String) (s : State) (c : Comment) : Bool :=
  match renderCommentsSection currentUserId s with
  | some sec => sec.items.contains { comment := c, deleteIcon := true }
  | none => false

/-- What `{(canComplete(list)) && completeButton}` renders: the button or nothing. -/
def renderCompleteButton (perm : Permissions) (list : String) : Bool :=
  perm.canComplete list

/-- Whether `actionButtons` is rendered: it sits in the `!editTodo` block, under
`(canRemove(list, issue.list) || canComplete(list) || canAccept(list)) && ...`. -/
def renderActionButtons (perm : Permissions) (list : String) (issue : Issue) (s : State) :
    Bool :=
  !s.editTodo && (perm.canRemove list issue.list || perm.canComplete list || perm.canAccept list)

/-- Whether the accept button is rendered: `{canAccept(list) && acceptButton}` inside
`actionButtons`. -/
def renderAcceptButton (perm : Permissions) (list : String) (issue : Issue) (s : State) :
    Bool :=
  renderActionButtons perm list issue s && perm.canAccept list

/-- The texts of the items of the action menu, in order; `none` when the menu is not
rendered (`{!editTodo && (<MenuWrapper>...)}`). -/
def renderMenu (perm : Permissions) (list : String) (issue : Issue) (s : State) :
    Option (List String) :=
  if !s.editTodo then
    some ((if perm.canAccept list then ["Accept todo"] else []) ++
      (if perm.canBump list issue.list then ["Bump"] else []) ++
      ["Edit todo", "Assign to…"] ++
      (if perm.canRemove list issue.list then ["Delete todo"] else []))
  else none

/-- Whether the action menu has an item with the given text. -/
def menuShows (perm : Permissions) (list : String) (issue : Issue) (s : State)
    (text : String) : Bool :=
  match renderMenu perm list issue s with
  | some items => items.contains text
  | none => false

def MONTHS : List String :=
  ["Jan", "Feb", "Mar", "Apr", "May", "Jun", "Jul", "Aug", "Sep", "Oct", "Nov", "Dec"]

/-- What the getters of `new Date(issue.create_at)` return: the components of the
creation time in the local time zone. -/
structure LocalDate where
  /-- The value of `getFullYear()`. -/
  year : Int
  /-- The value of `getMonth()`, 0-based. -/
  month : Nat
  /-- The value of `getDate()`. -/
  day : Nat
  /-- The value of `getHours()`. -/
  hours : Nat
  /-- The value of `getMinutes()`. -/
  minutes : Nat
  /-- The value of `getSeconds()`. -/
  seconds : Nat
deriving DecidableEq, Repr

/-- The getters of `new Date(t)` for a time value `t`, where `tza` is the offset of
local time from UTC in effect at `t`, in milliseconds. -/
def localDate (tza : Int) (t : Int) : LocalDate where
  year := yearFromDay ((t + tza) / msPerDay)
  month := monthFromDay ((t + tza) / msPerDay)
  day := (dateFromDay ((t + tza) / msPerDay)).toNat
  hours := ((t + tza) % msPerDay).toNat / 3600000 % 24
  minutes := ((t + tza) % msPerDay).toNat / 60000 % 60
  seconds := ((t + tza) % msPerDay).toNat / 1000 % 60

/-- Model of `s.substr(-2)`: the last two characters, or all of a shorter string. -/
def substrLast2 (s : String) : String :=
  String.mk (s.data.drop (s.data.length - 2))

/-- The string `minutes`: `'0' + date.getMinutes()`. -/
def minutesText (d : LocalDate) : String := "0" ++ toString d.minutes

/-- The string `seconds`: `'0' + date.getSeconds()`. -/
def secondsText (d : LocalDate) : String := "0" ++ toString d.seconds

def formattedTime (d : LocalDate) : String :=
  toString d.hours ++ ":" ++ substrLast2 (minutesText d) ++ ":" ++ substrLast2 (secondsText d)

/-- The month name `MONTHS[date.getMonth()]`; an index outside the table gives
`undefined`, which string concatenation prints as such. -/
def monthName (d : LocalDate) : String := MONTHS.getD d.month "undefined"

def formattedDate (d : LocalDate) : String :=
  monthName d ++ " " ++ toString d.day ++ ", " ++ toString d.year

/-- The text of the creation line:
`createdMessage + ' on ' + formattedDate + ' at ' + formattedTime`. -/
def createdLine (issue : Issue) (d : LocalDate) : String :=
  createdMessage issue ++ " on " ++ formattedDate d ++ " at " ++ formattedTime d

/-! ## Events -/

inductive Event where
  | markAsDone
  | completeToast
  | undoCompleteTodo
  | removeTodo
  | undoRemoveTodo
  | advance (dt : Nat)
  /-- The "Edit todo" menu action: `() => setEditTodo(true)`. -/
  | editAction
  /-- The Cancel button: `() => setEditTodo(false)`. -/
  | cancelClick
  /-- The Save button: `saveEditedTodo`. -/
  | saveClick
  | keyDown (e : KeyEvent)
  | changeMessage (v : String)
  | changeDescription (v : String)
  /-- The priority select, whose options are 0, 1 and 2: `setPriority(parseInt(v, 10))`. -/
  | changePriority (v : Nat)
  | changeDueAt (v : String)
  | editAssignee
  | toggleComments
  | changeNewComment (v : String)
  | handleAddComment
  | handleDeleteComment (commentId : String)
  | resolve (i : Nat) (r : Reply)
deriving DecidableEq, Repr

def step (rt : Runtime) (issue : Issue) (s : State) : Event → State
  | Event.markAsDone => markAsDone s
  | Event.completeToast => completeToast issue s
  | Event.undoCompleteTodo => undoCompleteTodo s
  | Event.removeTodo => removeTodo issue s
  | Event.undoRemoveTodo => undoRemoveTodo s
  | Event.advance dt => advance dt s
  | Event.editAction => { s with editTodo := true }
  | Event.cancelClick => { s with editTodo := false }
  | Event.saveClick => saveEditedTodo rt issue s
  | Event.keyDown e => onKeyDown rt issue e s
  | Event.changeMessage v => { s with message := v }
  | Event.changeDescription v => { s with description := v }
  | Event.changePriority v => { s with priority := v }
  | Event.changeDueAt v => { s with dueAt := v }
  | Event.editAssignee => editAssignee issue s
  | Event.toggleComments => toggleComments issue s
  | Event.changeNewComment v => { s with newComment := v }
  | Event.handleAddComment => handleAddComment issue s
  | Event.handleDeleteComment c => handleDeleteComment c s
  | Event.resolve i r => resolve issue i r s

/-- Runs a sequence of events, oldest first. -/
def run (rt : Runtime) (issue : Issue) (s : State) (es : List Event) : State :=
  es.foldl (step rt issue) s

/-- The events of one trigger of complete.  `CompleteButton` is handed `markAsDone` and
`completeToast`; `mark` tells whether `markAsDone` is called before `completeToast`. -/
def completeTrigger (mark : Bool) : List Event :=
  (if mark then [Event.markAsDone] else []) ++ [Event.completeToast]

/-- The `complete` calls of a log. -/
def completeCalls (cs : List Call) : List Call :=
  cs.filter (fun c => match c with | Call.complete _ => true | _ => false)

/-- The `editIssue` calls of a log. -/
def editIssueCalls (cs : List Call) : List Call :=
  cs.filter (fun c => match c with | Call.editIssue _ _ _ _ _ => true | _ => false)

/-- No `complete` call is in the log and none is scheduled. -/
def NoComplete (s : State) : Prop :=
  completeCalls s.calls = [] ∧ ∀ t ∈ s.timers, ∀ id, t.call ≠ Call.complete id

/-- Events that write one of the edit drafts. -/
def isDraftChange : Event → Bool
  | Event.changeMessage _ => true
  | Event.changeDescription _ => true
  | Event.changePriority _ => true
  | Event.changeDueAt _ => true
  | _ => false

/-! ## Sample inputs -/

/-- A runtime whose `Date.parse` yields `NaN` outside the date-only forms. -/
def sampleRuntime : Runtime where
  otherDateParse := fun _ => none

/-- A task in the inbox, third of its list, due on 2023-11-14 at 22:13:20 UTC. -/
def sampleIssue : Issue where
  id := "t1"
  message := "Buy milk"
  description := "semi-skimmed"
  create_at := 1699000000000
  priority := 1
  due_at := 1700000000000
  user := "alice"
  list := "in"
  position := 2
  postPermalink := ""

/-- A task of the inbox that has no originating user. -/
def anonymousIssue : Issue := { sampleIssue with user := "" }

/-- A runtime that prints the position itself for `issue.position + 1` from 2^53 on. -/
def sampleNumberRuntime : NumberRuntime where
  unsafeSuccText := fun position => toString position

/-- A comment written by the user `u1`. -/
def sampleComment : Comment where
  id := "c1"
  username := "alice"
  user_id := "u1"
  message := "on it"
  created_at := 1699000100000

/-- Permissions that allow every action in every list. -/
def allowAll : Permissions where
  canComplete := fun _ => true
  canRemove := fun _ _ => true
  canAccept := fun _ => true
  canBump := fun _ _ => true

/-- The local components of 2023-11-03 08:26:40. -/
def sampleLocalDate : LocalDate := localDate 0 sampleIssue.create_at

/-! # Theorems -/

/-! ## Calendar arithmetic -/

theorem monthStart_mono (leap : Bool) :
    ∀ a, a < 13 → ∀ b, b < 13 → a ≤ b → monthStart leap a ≤ monthStart leap b := by
  cases leap <;> decide

theorem monthStart_zero (leap : Bool) : monthStart leap 0 = 0 := rfl

/-- The month found by the table of `MonthFromTime` is the one whose days include `w`. -/
theorem monthOfYearDay_spec (leap : Bool) (w : Int) (h0 : 0 ≤ w) (h1 : w < monthStart leap 12) :
    monthOfYearDay leap w < 12 ∧ monthStart leap (monthOfYearDay leap w) ≤ w ∧
      w < monthStart leap (monthOfYearDay leap w + 1) := by
  unfold monthOfYearDay
  by_cases c1 : w < monthStart leap 1
  · rw [if_pos c1]
    exact ⟨by decide, by rw [monthStart_zero]; exact h0, c1⟩
  rw [if_neg c1]
  by_cases c2 : w < monthStart leap 2
  · rw [if_pos c2]
    exact ⟨by decide, not_lt.mp c1, c2⟩
  rw [if_neg c2]
  by_cases c3 : w < monthStart leap 3
  · rw [if_pos c3]
    exact ⟨by decide, not_lt.mp c2, c3⟩
  rw [if_neg c3]
  by_cases c4 : w < monthStart leap 4
  · rw [if_pos c4]
    exact ⟨by decide, not_lt.mp c3, c4⟩
  rw [if_neg c4]
  by_cases c5 : w < monthStart leap 5
  · rw [if_pos c5]
    exact ⟨by decide, not_lt.mp c4, c5⟩
  rw [if_neg c5]
  by_cases c6 : w < monthStart leap 6
  · rw [if_pos c6]
    exact ⟨by decide, not_lt.mp c5, c6⟩
  rw [if_neg c6]
  by_cases c7 : w < monthStart leap 7
  · rw [if_pos c7]
    exact ⟨by decide, not_lt.mp c6, c7⟩
  rw [if_neg c7]
  by_cases c8 : w < monthStart leap 8
  · rw [if_pos c8]
    exact ⟨by decide, not_lt.mp c7, c8⟩
  rw [if_neg c8]
  by_cases c9 : w < monthStart leap 9
  · rw [if_pos c9]
    exact ⟨by decide, not_lt.mp c8, c9⟩
  rw [if_neg c9]
  by_cases c10 : w < monthStart leap 10
  · rw [if_pos c10]
    exact ⟨by decide, not_lt.mp c9, c10⟩
  rw [if_neg c10]
  by_cases c11 : w < monthStart leap 11
  · rw [if_pos c11]
    exact ⟨by decide, not_lt.mp c10, c11⟩
  rw [if_neg c11]
  exact ⟨by decide, not_lt.mp c11, h1⟩

theorem monthOfYearDay_unique (leap : Bool) (m : Nat) (w : Int) (hm : m < 12)
    (h0 : monthStart leap m ≤ w) (h1 : w < monthStart leap (m + 1)) :
    monthOfYearDay leap w = m := by
  have hmono := monthStart_mono leap
  have hz : 0 ≤ monthStart leap m := by
    have := hmono 0 (by decide) m (by omega) (by omega)
    rwa [monthStart_zero] at this
  have hlast : monthStart leap (m + 1) ≤ monthStart leap 12 :=
    hmono (m + 1) (by omega) 12 (by decide) (by omega)
  obtain ⟨hlt, hlo, hhi⟩ := monthOfYearDay_spec leap w (by omega) (by omega)
  rcases lt_trichotomy (monthOfYearDay leap w) m with h | h | h
  · have := hmono (monthOfYearDay leap w + 1) (by omega) m (by omega) (by omega)
    omega
  · exact h
  · have := hmono (m + 1) (by omega) (monthOfYearDay leap w) (by omega) (by omega)
    omega

theorem monthStart_bounds (leap : Bool) :
    ∀ m, m < 12 → monthStart leap m + 28 ≤ monthStart leap (m + 1) ∧
      monthStart leap (m + 1) ≤ monthStart leap m + 31 := by
  cases leap <;> decide


theorem floor4_succ (y : Int) :
    (y + 1 - 1969) / 4 = (y - 1969) / 4 + (if y % 4 = 0 then 1 else 0) := by
  split_ifs <;> omega

theorem floor100_succ (y : Int) :
    (y + 1 - 1901) / 100 = (y - 1901) / 100 + (if y % 100 = 0 then 1 else 0) := by
  split_ifs <;> omega

theorem floor400_succ (y : Int) :
    (y + 1 - 1601) / 400 = (y - 1601) / 400 + (if y % 400 = 0 then 1 else 0) := by
  split_ifs <;> omega

theorem monthStart_leap_12 (y : Int) :
    monthStart (inLeapYear y) 12 =
      365 + (if y % 4 = 0 then 1 else 0) - (if y % 100 = 0 then 1 else 0)
        + (if y % 400 = 0 then 1 else 0) := by
  unfold inLeapYear monthStart
  by_cases h4 : y % 4 = 0 <;> by_cases h100 : y % 100 = 0 <;> by_cases h400 : y % 400 = 0 <;>
    simp [h4, h100, h400] <;> omega

theorem dayFromYear_succ (y : Int) :
    dayFromYear (y + 1) = dayFromYear y + monthStart (inLeapYear y) 12 := by
  rw [monthStart_leap_12]
  unfold dayFromYear
  rw [floor4_succ, floor100_succ, floor400_succ]
  ring

theorem dayFromYear_mono : Monotone dayFromYear := by
  apply monotone_int_of_le_succ
  intro y
  rw [dayFromYear_succ]
  have := monthStart_mono (inLeapYear y) 0 (by decide) 12 (by decide) (by decide)
  rw [monthStart_zero] at this
  omega

theorem yearFromDay_estimate_lo (d : Int) :
    dayFromYear (1970 + (400 * d) / 146097 - 1) ≤ d := by
  unfold dayFromYear; omega

theorem yearFromDay_estimate_hi (d : Int) :
    d < dayFromYear (1970 + (400 * d) / 146097 + 1 + 1) := by
  unfold dayFromYear; omega

theorem yearFromDay_lo (d : Int) : dayFromYear (yearFromDay d) ≤ d := by
  unfold yearFromDay
  simp only []
  split_ifs with h1 h2
  · exact yearFromDay_estimate_lo d
  · exact h2
  · exact not_lt.mp h1

theorem yearFromDay_hi (d : Int) : d < dayFromYear (yearFromDay d + 1) := by
  unfold yearFromDay
  simp only []
  split_ifs with h1 h2
  · rw [sub_add_cancel]; exact h1
  · exact yearFromDay_estimate_hi d
  · exact not_le.mp h2

/-- The function `yearFromDay` is ECMAScript's `YearFromTime`: the only year whose days
include `d`. -/
theorem yearFromDay_eq_iff (d y : Int) :
    yearFromDay d = y ↔ dayFromYear y ≤ d ∧ d < dayFromYear (y + 1) := by
  constructor
  · rintro rfl
    exact ⟨yearFromDay_lo d, yearFromDay_hi d⟩
  · rintro ⟨hlo, hhi⟩
    have h1 := yearFromDay_lo d
    have h2 := yearFromDay_hi d
    rcases lt_trichotomy (yearFromDay d) y with h | h | h
    · have : dayFromYear (yearFromDay d + 1) ≤ dayFromYear y := dayFromYear_mono (by omega)
      omega
    · exact h
    · have : dayFromYear (y + 1) ≤ dayFromYear (yearFromDay d) := dayFromYear_mono (by omega)
      omega

theorem dayWithinYear_nonneg (d : Int) : 0 ≤ dayWithinYear d := by
  have := yearFromDay_lo d
  unfold dayWithinYear; omega

theorem dayWithinYear_lt (d : Int) :
    dayWithinYear d < monthStart (inLeapYear (yearFromDay d)) 12 := by
  have := yearFromDay_hi d
  rw [dayFromYear_succ] at this
  unfold dayWithinYear; omega

theorem monthFromDay_lt (d : Int) : monthFromDay d < 12 :=
  (monthOfYearDay_spec _ _ (dayWithinYear_nonneg d) (dayWithinYear_lt d)).1

theorem dateFromDay_bounds (d : Int) :
    1 ≤ dateFromDay d ∧ dateFromDay d ≤ daysInMonth (yearFromDay d) (monthFromDay d) := by
  obtain ⟨_, hlo, hhi⟩ := monthOfYearDay_spec _ _ (dayWithinYear_nonneg d) (dayWithinYear_lt d)
  unfold dateFromDay daysInMonth monthFromDay
  omega

theorem daysInMonth_le (y : Int) (m : Nat) (hm : m < 12) : daysInMonth y m ≤ 31 := by
  have := (monthStart_bounds (inLeapYear y) m hm).2
  unfold daysInMonth
  omega

/-- The day number is recovered from its year, month and date. -/
theorem makeDay_fromDay (d : Int) :
    makeDay (yearFromDay d) (monthFromDay d) (dateFromDay d) = d := by
  unfold makeDay dateFromDay dayWithinYear
  omega

/-- Year, month and date are recovered from the day number of a calendar date. -/
theorem fromDay_makeDay (y : Int) (m : Nat) (dt : Int) (hm : m < 12)
    (hd : 1 ≤ dt ∧ dt ≤ daysInMonth y m) :
    yearFromDay (makeDay y m dt) = y ∧ monthFromDay (makeDay y m dt) = m ∧
      dateFromDay (makeDay y m dt) = dt := by
  have hmono := monthStart_mono (inLeapYear y)
  have hz : 0 ≤ monthStart (inLeapYear y) m := by
    have := hmono 0 (by decide) m (by omega) (by omega)
    rwa [monthStart_zero] at this
  have hlast : monthStart (inLeapYear y) (m + 1) ≤ monthStart (inLeapYear y) 12 :=
    hmono (m + 1) (by omega) 12 (by decide) (by omega)
  unfold daysInMonth at hd
  have hy : yearFromDay (makeDay y m dt) = y := by
    rw [yearFromDay_eq_iff, dayFromYear_succ]
    unfold makeDay
    omega
  have hw : dayWithinYear (makeDay y m dt) = monthStart (inLeapYear y) m + dt - 1 := by
    unfold dayWithinYear
    rw [hy]
    unfold makeDay
    omega
  have hmo : monthFromDay (makeDay y m dt) = m := by
    unfold monthFromDay
    rw [hy, hw]
    exact monthOfYearDay_unique _ m _ hm (by omega) (by omega)
  refine ⟨hy, hmo, ?_⟩
  unfold dateFromDay
  rw [hw, hy, hmo]
  omega

/-! ## ISO date strings -/

theorem digitVal_digitChar (n : Nat) : digitVal (digitChar n) = some (n % 10) := by
  have h : n % 10 < 10 := Nat.mod_lt _ (by decide)
  unfold digitChar
  generalize n % 10 = k at h
  interval_cases k <;> decide

theorem digitChar_ne_T (n : Nat) : (digitChar n != 'T') = true := by
  have h : n % 10 < 10 := Nat.mod_lt _ (by decide)
  unfold digitChar
  generalize n % 10 = k at h
  interval_cases k <;> decide

theorem parseDigits_pad2 (n : Nat) (h : n < 100) : parseDigits 0 (pad2 n) = some n := by
  simp only [pad2, parseDigits, digitVal_digitChar]
  congr 1
  omega

theorem parseDigits_pad4 (n : Nat) (h : n < 10000) : parseDigits 0 (pad4 n) = some n := by
  simp only [pad4, parseDigits, digitVal_digitChar]
  congr 1
  omega

theorem parseDigits_pad6 (n : Nat) (h : n < 1000000) : parseDigits 0 (pad6 n) = some n := by
  simp only [pad6, parseDigits, digitVal_digitChar]
  congr 1
  omega

/-- Reading back a formatted date gives its fields. -/
theorem isoDateFields_isoDate (y : Int) (m d : Nat) (hy : -999999 ≤ y ∧ y ≤ 999999)
    (hm : m < 100) (hd : d < 100) : isoDateFields (isoDate y m d) = some (y, m, d) := by
  have h2m := parseDigits_pad2 m hm
  have h2d := parseDigits_pad2 d hd
  unfold isoDate isoYear
  by_cases h : 0 ≤ y ∧ y ≤ 9999
  · have h4 := parseDigits_pad4 y.toNat (by omega)
    rw [if_pos h]
    simp only [pad4, pad2] at h4 h2m h2d ⊢
    simp only [List.cons_append, List.nil_append, isoDateFields, h4, h2m, h2d]
    simp
    omega
  · have h6 := parseDigits_pad6 y.natAbs (by omega)
    rw [if_neg h]
    simp only [pad6, pad2] at h6 h2m h2d ⊢
    simp only [List.cons_append, List.nil_append, isoDateFields, h6, h2m, h2d]
    by_cases hs : 0 ≤ y
    · have hn : (y.natAbs : Int) = y := by omega
      simp [hs, hn]
    · have hn : (y.natAbs : Int) = -y := by omega
      have h0 : y ≠ 0 := by omega
      simp [hs, hn, h0]

theorem isoDate_ne_nil (y : Int) (m d : Nat) : isoDate y m d ≠ [] := by
  unfold isoDate isoYear pad4
  split_ifs <;> simp

theorem takeWhile_isoDate (y : Int) (m d : Nat) (rest : List Char) :
    (isoDate y m d ++ 'T' :: rest).takeWhile (fun c => c != 'T') = isoDate y m d := by
  unfold isoDate isoYear pad4 pad6 pad2
  split_ifs <;> simp [List.takeWhile, digitChar_ne_T]

theorem digitChar_of_digitVal (c : Char) (k : Nat) (h : digitVal c = some k) :
    k < 10 ∧ digitChar k = c := by
  unfold digitVal at h
  split_ifs at h with hc
  have hk : k = c.toNat - 48 := (Option.some.inj h).symm
  refine ⟨by omega, ?_⟩
  unfold digitChar
  have : 48 + k % 10 = c.toNat := by omega
  rw [this, Char.ofNat_toNat]

theorem pad2_of_parseDigits (a b : Char) (n : Nat) (h : parseDigits 0 [a, b] = some n) :
    n < 100 ∧ pad2 n = [a, b] := by
  simp only [parseDigits] at h
  cases ha : digitVal a with
  | none => simp [ha] at h
  | some ka =>
    cases hb : digitVal b with
    | none => simp [ha, hb] at h
    | some kb =>
      simp only [ha, hb, Option.some.injEq] at h
      obtain ⟨la, ea⟩ := digitChar_of_digitVal a ka ha
      obtain ⟨lb, eb⟩ := digitChar_of_digitVal b kb hb
      refine ⟨by omega, ?_⟩
      unfold pad2 digitChar at *
      have e1 : n / 10 % 10 = ka % 10 := by omega
      have e2 : n % 10 = kb % 10 := by omega
      rw [e1, e2, ea, eb]

theorem pad4_of_parseDigits (a b c d : Char) (n : Nat)
    (h : parseDigits 0 [a, b, c, d] = some n) : n < 10000 ∧ pad4 n = [a, b, c, d] := by
  simp only [parseDigits] at h
  cases ha : digitVal a with
  | none => simp [ha] at h
  | some ka =>
    cases hb : digitVal b with
    | none => simp [ha, hb] at h
    | some kb =>
      cases hc : digitVal c with
      | none => simp [ha, hb, hc] at h
      | some kc =>
        cases hd : digitVal d with
        | none => simp [ha, hb, hc, hd] at h
        | some kd =>
          simp only [ha, hb, hc, hd, Option.some.injEq] at h
          obtain ⟨la, ea⟩ := digitChar_of_digitVal a ka ha
          obtain ⟨lb, eb⟩ := digitChar_of_digitVal b kb hb
          obtain ⟨lc, ec⟩ := digitChar_of_digitVal c kc hc
          obtain ⟨ld, ed⟩ := digitChar_of_digitVal d kd hd
          refine ⟨by omega, ?_⟩
          unfold pad4 digitChar at *
          have e1 : n / 1000 % 10 = ka % 10 := by omega
          have e2 : n / 100 % 10 = kb % 10 := by omega
          have e3 : n / 10 % 10 = kc % 10 := by omega
          have e4 : n % 10 = kd % 10 := by omega
          rw [e1, e2, e3, e4, ea, eb, ec, ed]

/-- A ten-character string that reads as a date is the `YYYY-MM-DD` format of its
fields, and its year is one of 0 to 9999. -/
theorem isoDate_of_isoDateFields (s : List Char) (y : Int) (m d : Nat)
    (hlen : s.length = 10) (h : isoDateFields s = some (y, m, d)) :
    0 ≤ y ∧ y ≤ 9999 ∧ s = isoDate y m d := by
  match s, hlen with
  | [y1, y2, y3, y4, h1, m1, m2, h2, d1, d2], _ =>
    simp only [isoDateFields] at h
    split_ifs at h with hh
    obtain ⟨e1, e2⟩ := hh
    subst e1 e2
    cases hy : parseDigits 0 [y1, y2, y3, y4] with
    | none => simp [hy] at h
    | some yn =>
      cases hm : parseDigits 0 [m1, m2] with
      | none => simp [hy, hm] at h
      | some mn =>
        cases hd : parseDigits 0 [d1, d2] with
        | none => simp [hy, hm, hd] at h
        | some dn =>
          simp only [hy, hm, hd, Option.some.injEq, Prod.mk.injEq] at h
          obtain ⟨ey, em, ed⟩ := h
          subst ey em ed
          obtain ⟨by4, ep4⟩ := pad4_of_parseDigits _ _ _ _ _ hy
          obtain ⟨_, epm⟩ := pad2_of_parseDigits _ _ _ hm
          obtain ⟨_, epd⟩ := pad2_of_parseDigits _ _ _ hd
          refine ⟨by omega, by omega, ?_⟩
          unfold isoDate isoYear
          rw [if_pos ⟨by omega, by omega⟩, Int.toNat_ofNat, ep4, epm, epd]
          rfl

theorem timeClip_of_range (t : Int) (h : -maxTime ≤ t ∧ t ≤ maxTime) : timeClip t = some t := by
  unfold timeClip; rw [if_pos h]

/-- The initial due-date draft of a task with a valid, non-zero due time. -/
theorem dueAtInitial_of_range (t : Int) (h0 : t ≠ 0) (h : -maxTime ≤ t ∧ t ≤ maxTime) :
    dueAtInitial t = some (String.mk (isoDate (yearFromDay (t / msPerDay))
      (monthFromDay (t / msPerDay) + 1) (dateFromDay (t / msPerDay)).toNat)) := by
  unfold dueAtInitial toISOString
  rw [if_pos h0, timeClip_of_range t h]
  simp only [Option.map_some', splitT0, takeWhile_isoDate]

/-- Parsing a formatted calendar date gives UTC midnight of that date. -/
theorem dateParse_isoDate (rt : Runtime) (y : Int) (m d : Nat)
    (hy : -999999 ≤ y ∧ y ≤ 999999) (hm : 1 ≤ m ∧ m ≤ 12)
    (hd : 1 ≤ d ∧ (d : Int) ≤ daysInMonth y (m - 1)) :
    dateParse rt (String.mk (isoDate y m d)) = timeClip (makeDay y (m - 1) d * msPerDay) := by
  have hle := daysInMonth_le y (m - 1) (by omega)
  unfold dateParse
  rw [isoDateFields_isoDate y m d hy (by omega) (by omega)]
  simp only []
  rw [if_pos ⟨hm.1, hm.2, hd.1, hd.2⟩]

theorem yearFromDay_range (d : Int) (h : -100000000 ≤ d ∧ d ≤ 100000000) :
    -999999 ≤ yearFromDay d ∧ yearFromDay d ≤ 999999 := by
  have h1 := yearFromDay_lo d
  have h2 := yearFromDay_hi d
  unfold dayFromYear at h1 h2
  omega

/-- Formatting a valid non-zero time as a date and parsing it back gives UTC midnight
of the same day. -/
theorem dateParse_dueAtInitial (rt : Runtime) (t : Int) (h0 : t ≠ 0)
    (h : -maxTime ≤ t ∧ t ≤ maxTime) :
    ∃ s, dueAtInitial t = some s ∧ s ≠ "" ∧
      dateParse rt s = some (t / msPerDay * msPerDay) := by
  refine ⟨_, dueAtInitial_of_range t h0 h, ?_, ?_⟩
  · intro hs
    exact isoDate_ne_nil _ _ _ (congrArg String.data hs)
  · have hday : -100000000 ≤ t / msPerDay ∧ t / msPerDay ≤ 100000000 := by
      unfold maxTime at h; unfold msPerDay; omega
    have hb := dateFromDay_bounds (t / msPerDay)
    have hml := monthFromDay_lt (t / msPerDay)
    have hcast : (((dateFromDay (t / msPerDay)).toNat : Nat) : Int) = dateFromDay (t / msPerDay) :=
      Int.toNat_of_nonneg (by omega)
    rw [dateParse_isoDate rt _ _ _ (yearFromDay_range _ hday) (by omega)
      (by rw [hcast, Nat.add_sub_cancel]; exact ⟨by omega, hb.2⟩)]
    rw [hcast, Nat.add_sub_cancel, makeDay_fromDay]
    apply timeClip_of_range
    unfold maxTime at *; unfold msPerDay at *; omega

theorem dayFromYear_zero : dayFromYear 0 = -719528 := by decide

theorem dayFromYear_tenThousand : dayFromYear 10000 = 2932897 := by decide

theorem makeDay_eq_zero (y : Int) (m : Nat) (dt : Int) (hm : m < 12)
    (hd : 1 ≤ dt ∧ dt ≤ daysInMonth y m) (h : makeDay y m dt = 0) :
    y = 1970 ∧ m = 0 ∧ dt = 1 := by
  obtain ⟨h1, h2, h3⟩ := fromDay_makeDay y m dt hm hd
  rw [h] at h1 h2 h3
  exact ⟨h1.symm.trans (by decide), h2.symm.trans (by decide), h3.symm.trans (by decide)⟩

/-- Parsing a date of the years 0 to 9999 other than 1970-01-01 and formatting the
result as a date gives the date back. -/
theorem dueAtInitial_dateParse (rt : Runtime) (y : Int) (m d : Nat)
    (hy : 0 ≤ y ∧ y ≤ 9999) (hm : 1 ≤ m ∧ m ≤ 12)
    (hd : 1 ≤ d ∧ (d : Int) ≤ daysInMonth y (m - 1))
    (hne : ¬ (y = 1970 ∧ m = 1 ∧ d = 1)) :
    dateParse rt (String.mk (isoDate y m d)) = some (makeDay y (m - 1) d * msPerDay) ∧
      dueAtInitial (makeDay y (m - 1) d * msPerDay) = some (String.mk (isoDate y m d)) := by
  have hm' : m - 1 < 12 := by omega
  have hd' : (1 : Int) ≤ d ∧ (d : Int) ≤ daysInMonth y (m - 1) := ⟨by omega, hd.2⟩
  obtain ⟨f1, f2, f3⟩ := fromDay_makeDay y (m - 1) d hm' hd'
  have hlo : dayFromYear 0 ≤ makeDay y (m - 1) d := by
    have := yearFromDay_lo (makeDay y (m - 1) d)
    rw [f1] at this
    exact le_trans (dayFromYear_mono hy.1) this
  have hhi : makeDay y (m - 1) d < dayFromYear 10000 := by
    have := yearFromDay_hi (makeDay y (m - 1) d)
    rw [f1] at this
    exact lt_of_lt_of_le this (dayFromYear_mono (by omega))
  rw [dayFromYear_zero] at hlo
  rw [dayFromYear_tenThousand] at hhi
  have hr : -maxTime ≤ makeDay y (m - 1) d * msPerDay ∧
      makeDay y (m - 1) d * msPerDay ≤ maxTime := by
    unfold maxTime msPerDay; omega
  have hnz : makeDay y (m - 1) d * msPerDay ≠ 0 := by
    intro h0
    have : makeDay y (m - 1) d = 0 := by unfold msPerDay at h0; omega
    obtain ⟨e1, e2, e3⟩ := makeDay_eq_zero y (m - 1) d hm' hd' this
    exact hne ⟨e1, by omega, by omega⟩
  refine ⟨?_, ?_⟩
  · rw [dateParse_isoDate rt y m d ⟨by omega, by omega⟩ hm hd, timeClip_of_range _ hr]
  · rw [dueAtInitial_of_range _ hnz hr]
    have hdiv : makeDay y (m - 1) d * msPerDay / msPerDay = makeDay y (m - 1) d :=
      Int.mul_ediv_cancel _ (by decide)
    rw [hdiv, f1, f2, f3]
    have : m - 1 + 1 = m := by omega
    rw [this, Int.toNat_ofNat]

/-! ## The optimistic complete action and its undo -/

theorem mount_eq_some {issue : Issue} {s0 : State} (h : mount issue = some s0) :
    ∃ d, s0 = initialState issue d := by
  unfold mount at h
  cases hd : dueAtInitial issue.due_at with
  | none => simp [hd] at h
  | some d => exact ⟨d, by simpa [hd] using h.symm⟩

theorem run_nil (rt : Runtime) (issue : Issue) (s : State) : run rt issue s [] = s := rfl

theorem run_cons (rt : Runtime) (issue : Issue) (s : State) (e : Event) (es : List Event) :
    run rt issue s (e :: es) = run rt issue (step rt issue s e) es := rfl

theorem run_append (rt : Runtime) (issue : Issue) (s : State) (es fs : List Event) :
    run rt issue s (es ++ fs) = run rt issue (run rt issue s es) fs := by
  simp [run, List.foldl_append]

theorem completeCalls_append (xs ys : List Call) :
    completeCalls (xs ++ ys) = completeCalls xs ++ completeCalls ys := by
  simp [completeCalls]

theorem completeCalls_map_of_no_complete (ts : List Timer)
    (h : ∀ t ∈ ts, ∀ id, t.call ≠ Call.complete id) :
    completeCalls (ts.map (fun tm => tm.call)) = [] := by
  induction ts with
  | nil => rfl
  | cons t ts ih =>
    have ht := h t (List.mem_cons_self _ _)
    have := ih (fun u hu => h u (List.mem_cons_of_mem _ hu))
    simp only [List.map_cons, completeCalls, List.filter_cons]
    cases hc : t.call <;> simp_all [completeCalls]

theorem NoComplete_step (rt : Runtime) (issue : Issue) (s : State) (e : Event)
    (he : e ≠ Event.completeToast) (h : NoComplete s) : NoComplete (step rt issue s e) := by
  obtain ⟨hc, ht⟩ := h
  cases e with
  | completeToast => exact absurd rfl he
  | markAsDone => exact ⟨hc, ht⟩
  | undoCompleteTodo =>
    refine ⟨?_, ?_⟩
    · simp only [step, undoCompleteTodo, clearTimeout]
      cases s.completeTimeout <;> simpa using hc
    · intro t htm
      simp only [step, undoCompleteTodo, clearTimeout] at htm
      cases hto : s.completeTimeout <;> simp only [hto] at htm
      · exact ht t htm
      · exact ht t (List.mem_of_mem_filter htm)
  | removeTodo =>
    refine ⟨?_, ?_⟩
    · simp [step, removeTodo, setTimeout, completeCalls_append, hc]
      simp [completeCalls]
    · intro t htm
      simp only [step, removeTodo, setTimeout, List.mem_append, List.mem_singleton] at htm
      rcases htm with htm | htm
      · exact ht t htm
      · subst htm; intro id; simp
  | undoRemoveTodo =>
    refine ⟨?_, ?_⟩
    · simp only [step, undoRemoveTodo, clearTimeout]
      cases s.removeTimeout <;> simpa using hc
    · intro t htm
      simp only [step, undoRemoveTodo, clearTimeout] at htm
      cases hto : s.removeTimeout <;> simp only [hto] at htm
      · exact ht t htm
      · exact ht t (List.mem_of_mem_filter htm)
  | advance dt =>
    refine ⟨?_, ?_⟩
    · simp only [step, advance, completeCalls_append, hc, List.nil_append]
      exact completeCalls_map_of_no_complete _ (fun t htm => ht t (List.mem_of_mem_filter htm))
    · intro t htm
      simp only [step, advance] at htm
      exact ht t (List.mem_of_mem_filter htm)
  | editAction => exact ⟨hc, ht⟩
  | cancelClick => exact ⟨hc, ht⟩
  | saveClick =>
    refine ⟨?_, ht⟩
    simp only [step, saveEditedTodo, completeCalls_append, hc, List.nil_append]
    simp [completeCalls]
  | keyDown e =>
    refine ⟨?_, ?_⟩
    · simp only [step, onKeyDown, saveEditedTodo]
      split_ifs <;> simp [completeCalls_append, hc] <;> simp [completeCalls]
    · intro t htm
      simp only [step, onKeyDown, saveEditedTodo] at htm
      split_ifs at htm <;> exact ht t htm
  | changeMessage v => exact ⟨hc, ht⟩
  | changeDescription v => exact ⟨hc, ht⟩
  | changePriority v => exact ⟨hc, ht⟩
  | changeDueAt v => exact ⟨hc, ht⟩
  | editAssignee =>
    refine ⟨?_, ht⟩
    simp only [step, editAssignee, completeCalls_append, hc, List.nil_append]
    simp [completeCalls]
  | toggleComments =>
    refine ⟨?_, ?_⟩
    · simp only [step, toggleComments, commentsEffect]
      split_ifs
      · simp [completeCalls_append, hc]; simp [completeCalls]
      · simpa using hc
    · intro t htm
      simp only [step, toggleComments, commentsEffect] at htm
      split_ifs at htm <;> exact ht t htm
  | changeNewComment v => exact ⟨hc, ht⟩
  | handleAddComment =>
    refine ⟨?_, ?_⟩
    · simp only [step, handleAddComment]
      split_ifs
      · exact hc
      · simp [completeCalls_append, hc]; simp [completeCalls]
    · intro t htm
      simp only [step, handleAddComment] at htm
      split_ifs at htm <;> exact ht t htm
  | handleDeleteComment c =>
    refine ⟨?_, ht⟩
    simp only [step, handleDeleteComment, completeCalls_append, hc, List.nil_append]
    simp [completeCalls]
  | resolve i r =>
    refine ⟨?_, ?_⟩
    · simp only [step, resolve]
      cases s.pending.get? i with
      | none => exact hc
      | some p =>
        cases p <;> cases r <;> simp [continueWith, completeCalls_append, hc] <;>
          simp [completeCalls]
    · intro t htm
      simp only [step, resolve] at htm
      cases hp : s.pending.get? i with
      | none => simp only [hp] at htm; exact ht t htm
      | some p =>
        simp only [hp] at htm
        cases p <;> cases r <;> simp only [continueWith] at htm <;> exact ht t htm

theorem NoComplete_run (rt : Runtime) (issue : Issue) (es : List Event)
    (hes : Event.completeToast ∉ es) :
    ∀ s : State, NoComplete s → NoComplete (run rt issue s es) := by
  induction es with
  | nil => intro s h; exact h
  | cons e es ih =>
    intro s h
    rw [run_cons]
    have he : e ≠ Event.completeToast := fun hc => hes (hc ▸ List.mem_cons_self _ _)
    exact ih (fun hm => hes (List.mem_cons_of_mem _ hm)) _ (NoComplete_step rt issue s e he h)

theorem trigger_state (rt : Runtime) (issue : Issue) (d : String) (mark : Bool) :
    run rt issue (initialState issue d) (completeTrigger mark) =
      { initialState issue d with
        done := mark
        hidden := true
        completeTimeout := some 0
        nextHandle := 1
        timers := [{ handle := 0, deadline := 5000, call := Call.complete issue.id }]
        calls := [Call.openTodoToast "check" "Todo completed" UndoKind.undoCompleteTodo] } := by
  cases mark <;>
    simp [completeTrigger, run, step, markAsDone, completeToast, setTimeout, initialState]

/-- While a single timer is pending and no timer is started or cleared, the passage of
time fires it exactly when its deadline is reached and changes nothing else. -/
theorem run_advances_pending (rt : Runtime) (issue : Issue) (tm : Timer) (ds : List Nat) :
    ∀ s : State, s.timers = [tm] → s.now < tm.deadline →
      (s.now + ds.sum < tm.deadline →
        (run rt issue s (ds.map Event.advance)).calls = s.calls ∧
        (run rt issue s (ds.map Event.advance)).timers = [tm] ∧
        (run rt issue s (ds.map Event.advance)).hidden = s.hidden) ∧
      (tm.deadline ≤ s.now + ds.sum →
        (run rt issue s (ds.map Event.advance)).calls = s.calls ++ [tm.call] ∧
        (run rt issue s (ds.map Event.advance)).timers = [] ∧
        (run rt issue s (ds.map Event.advance)).hidden = s.hidden) := by
  induction ds with
  | nil =>
    intro s ht hn
    refine ⟨fun _ => ⟨rfl, ht, rfl⟩, fun h => ?_⟩
    simp at h
    omega
  | cons dt ds ih =>
    intro s ht hn
    simp only [List.map_cons, run_cons, step, List.sum_cons]
    by_cases hfire : tm.deadline ≤ s.now + dt
    · -- the timer fires during this advance; afterwards nothing is pending
      have hidle : ∀ (es : List Nat) (u : State), u.timers = [] →
          (run rt issue u (es.map Event.advance)).calls = u.calls ∧
          (run rt issue u (es.map Event.advance)).timers = [] ∧
          (run rt issue u (es.map Event.advance)).hidden = u.hidden := by
        intro es
        induction es with
        | nil => intro u hu; exact ⟨rfl, hu, rfl⟩
        | cons e es ihe =>
          intro u hu
          simp only [List.map_cons, run_cons, step]
          have := ihe (advance e u) (by simp [advance, hu])
          simpa [advance, hu] using this
      have h1 := hidle ds (advance dt s) (by simp [advance, ht, hfire])
      refine ⟨fun h => by omega, fun _ => ?_⟩
      simpa [advance, ht, hfire] using h1
    · have h1 := ih (advance dt s) (by simp [advance, ht, hfire]) (by simp [advance]; omega)
      have hcalls : (advance dt s).calls = s.calls := by simp [advance, ht, hfire]
      have hnow : (advance dt s).now = s.now + dt := by simp [advance]
      have hhid : (advance dt s).hidden = s.hidden := by simp [advance]
      rw [hcalls, hnow, hhid] at h1
      refine ⟨fun h => h1.1 (by omega), fun h => h1.2 (by omega)⟩

/-- C1 (the code at the failing input): a second `completeToast` overwrites the handle
kept in `completeTimeout` without clearing the first timer, so the undo that follows
clears the second timer only: the first timer fires at 5000 ms and `complete(id)` is
invoked, although an undo was invoked 2000 ms after its trigger and no trigger occurred
after the undo; the item is then neither hidden nor done. -/
theorem undo_after_retrigger_does_not_cancel (rt : Runtime) (issue : Issue) (d : String) :
    (run rt issue (initialState issue d)
        [Event.completeToast, Event.advance 1000, Event.completeToast, Event.advance 1000,
         Event.undoCompleteTodo]).timers
      = [{ handle := 0, deadline := 5000, call := Call.complete issue.id }] ∧
    completeCalls (run rt issue (initialState issue d)
        [Event.completeToast, Event.advance 1000, Event.completeToast, Event.advance 1000,
         Event.undoCompleteTodo, Event.advance 3000]).calls
      = [Call.complete issue.id] ∧
    (run rt issue (initialState issue d)
        [Event.completeToast, Event.advance 1000, Event.completeToast, Event.advance 1000,
         Event.undoCompleteTodo, Event.advance 3000]).fired = [(0, 5000)] ∧
    (run rt issue (initialState issue d)
        [Event.completeToast, Event.advance 1000, Event.completeToast, Event.advance 1000,
         Event.undoCompleteTodo, Event.advance 3000]).hidden = false ∧
    (run rt issue (initialState issue d)
        [Event.completeToast, Event.advance 1000, Event.completeToast, Event.advance 1000,
         Event.undoCompleteTodo, Event.advance 3000]).done = false := by
  simp [run, step, completeToast, undoCompleteTodo, advance, setTimeout, clearTimeout,
    initialState, completeCalls]

/-- C2: from the initial state, one trigger of complete followed by the toast's undo
less than 5000 ms later leaves `done` and `hidden` false and no timer pending, and
`complete` is not invoked afterwards, whatever events follow, as long as none of them
is a new trigger. -/
theorem undo_before_expiry_cancels (rt : Runtime) (issue : Issue) (s0 : State)
    (hm : mount issue = some s0) (mark : Bool) (dt : Nat) (hdt : dt < 5000)
    (later : List Event) (hl : Event.completeToast ∉ later) :
    (run rt issue s0 (completeTrigger mark ++
        [Event.advance dt, Event.undoCompleteTodo])).done = false ∧
    (run rt issue s0 (completeTrigger mark ++
        [Event.advance dt, Event.undoCompleteTodo])).hidden = false ∧
    (run rt issue s0 (completeTrigger mark ++
        [Event.advance dt, Event.undoCompleteTodo])).timers = [] ∧
    completeCalls (run rt issue s0 (completeTrigger mark ++
        [Event.advance dt, Event.undoCompleteTodo] ++ later)).calls = [] := by
  obtain ⟨d, rfl⟩ := mount_eq_some hm
  have hnf : ¬ (5000 ≤ dt) := by omega
  have hs : NoComplete (run rt issue (initialState issue d)
      (completeTrigger mark ++ [Event.advance dt, Event.undoCompleteTodo])) := by
    rw [run_append, trigger_state]
    constructor
    · simp [run, step, advance, undoCompleteTodo, clearTimeout, initialState, hnf,
        completeCalls]
    · intro t ht
      simp [run, step, advance, undoCompleteTodo, clearTimeout, initialState, hnf] at ht
  refine ⟨?_, ?_, ?_, ?_⟩
  · rw [run_append, trigger_state]
    simp [run, step, advance, undoCompleteTodo, clearTimeout]
  · rw [run_append, trigger_state]
    simp [run, step, advance, undoCompleteTodo, clearTimeout]
  · rw [run_append, trigger_state]
    simp [run, step, advance, undoCompleteTodo, clearTimeout, initialState, hnf]
  · rw [run_append]
    exact (NoComplete_run rt issue later hl _ hs).1

/-- C3: from the initial state, after one trigger of complete and no undo, `complete`
has not been invoked while less than 5000 ms have passed, and once 5000 ms or more have
passed it has been invoked exactly once, with the task's id, and `hidden` is still
true. -/
theorem complete_fires_once_after_delay (rt : Runtime) (issue : Issue) (s0 : State)
    (hm : mount issue = some s0) (mark : Bool) (ds : List Nat) :
    (ds.sum < 5000 →
      completeCalls (run rt issue s0
        (completeTrigger mark ++ ds.map Event.advance)).calls = []) ∧
    (5000 ≤ ds.sum →
      completeCalls (run rt issue s0
        (completeTrigger mark ++ ds.map Event.advance)).calls = [Call.complete issue.id] ∧
      (run rt issue s0 (completeTrigger mark ++ ds.map Event.advance)).hidden = true) := by
  obtain ⟨d, rfl⟩ := mount_eq_some hm
  rw [run_append, trigger_state]
  have h := run_advances_pending rt issue
    { handle := 0, deadline := 5000, call := Call.complete issue.id } ds
    { initialState issue d with
        done := mark
        hidden := true
        completeTimeout := some 0
        nextHandle := 1
        timers := [{ handle := 0, deadline := 5000, call := Call.complete issue.id }]
        calls := [Call.openTodoToast "check" "Todo completed" UndoKind.undoCompleteTodo] }
    rfl (by simp [initialState])
  simp only [initialState, Nat.zero_add] at h ⊢
  refine ⟨fun hlt => ?_, fun hge => ?_⟩
  · rw [(h.1 hlt).1]; simp [completeCalls]
  · rw [(h.2 hge).1, (h.2 hge).2.2]; simp [completeCalls]

theorem mount_sampleIssue : mount sampleIssue = some (initialState sampleIssue "2023-11-14") := by
  decide

theorem undo_before_expiry_cancels_witness :
    (run sampleRuntime sampleIssue (initialState sampleIssue "2023-11-14")
        (completeTrigger true ++
          [Event.advance 4999, Event.undoCompleteTodo])).done = false ∧
    (run sampleRuntime sampleIssue (initialState sampleIssue "2023-11-14")
        (completeTrigger true ++
          [Event.advance 4999, Event.undoCompleteTodo])).hidden = false ∧
    (run sampleRuntime sampleIssue (initialState sampleIssue "2023-11-14")
        (completeTrigger true ++
          [Event.advance 4999, Event.undoCompleteTodo])).timers = [] ∧
    completeCalls (run sampleRuntime sampleIssue (initialState sampleIssue "2023-11-14")
        (completeTrigger true ++ [Event.advance 4999, Event.undoCompleteTodo] ++
          [Event.advance 1, Event.toggleComments, Event.advance 100000])).calls = [] :=
  undo_before_expiry_cancels sampleRuntime sampleIssue _ mount_sampleIssue true 4999
    (by decide) [Event.advance 1, Event.toggleComments, Event.advance 100000] (by decide)

theorem complete_fires_once_after_delay_witness :
    completeCalls (run sampleRuntime sampleIssue (initialState sampleIssue "2023-11-14")
        (completeTrigger true ++ [2000, 3000].map Event.advance)).calls =
      [Call.complete "t1"] ∧
    (run sampleRuntime sampleIssue (initialState sampleIssue "2023-11-14")
        (completeTrigger true ++ [2000, 3000].map Event.advance)).hidden = true :=
  (complete_fires_once_after_delay sampleRuntime sampleIssue _ mount_sampleIssue true
    [2000, 3000]).2 (by decide)

/-! ## The due date passed by Save -/

theorem saveEditedTodo_calls (rt : Runtime) (issue : Issue) (s : State) :
    (saveEditedTodo rt issue s).calls = s.calls ++
      [Call.editIssue issue.id s.message s.description
        (if s.dueAt = "" then some 0 else dateParse rt s.dueAt) s.priority] := by
  unfold saveEditedTodo dueAtTimestamp
  by_cases h : s.dueAt = "" <;> simp [h]

/-- C4 (the claim fails at the date of the epoch): the well-formed draft `1970-01-01` is
parsed to the epoch 0, which the initialiser takes for "no due date" and turns into the
empty draft, so this date does not round-trip. -/
theorem dueAt_round_trip_fails_at_epoch :
    isDateOnly "1970-01-01" = true ∧
    dueAtTimestamp sampleRuntime "1970-01-01" = some 0 ∧
    dueAtInitial 0 = some "" ∧
    ¬ ∃ t, dueAtTimestamp sampleRuntime "1970-01-01" = some t ∧
      dueAtInitial t = some "1970-01-01" := by
  have h1 : dueAtTimestamp sampleRuntime "1970-01-01" = some 0 := by decide
  refine ⟨by decide, h1, by decide, ?_⟩
  rintro ⟨t, ht, hd⟩
  rw [h1] at ht
  cases ht
  revert hd
  decide

/-- C4 (amended): the due-date argument that `saveEditedTodo` passes to `editIssue` is 0
for the empty draft and otherwise the epoch obtained by parsing the draft; and every
well-formed date-only string `d` (`YYYY-MM-DD`, a calendar date) other than `1970-01-01`
round-trips: it is parsed to some epoch `t`, and the mount-time initialiser turns `t`
back into `d`. -/
theorem dueAt_round_trip (rt : Runtime) (issue : Issue) (s : State) (d : String)
    (hd : isDateOnly d = true) (hne : d ≠ "1970-01-01") :
    (saveEditedTodo rt issue s).calls = s.calls ++
      [Call.editIssue issue.id s.message s.description
        (if s.dueAt = "" then some 0 else dateParse rt s.dueAt) s.priority] ∧
    ∃ t, dueAtTimestamp rt d = some t ∧ dueAtInitial t = some d := by
  refine ⟨saveEditedTodo_calls rt issue s, ?_⟩
  unfold isDateOnly at hd
  cases hf : isoDateFields d.data with
  | none => simp [hf] at hd
  | some f =>
    obtain ⟨y, m, dd⟩ := f
    simp only [hf, Bool.and_eq_true, decide_eq_true_eq] at hd
    obtain ⟨⟨⟨⟨hlen, hm1⟩, hm2⟩, hd1⟩, hd2⟩ := hd
    obtain ⟨hy1, hy2, hdata⟩ := isoDate_of_isoDateFields d.data y m dd hlen hf
    have hstr : d = String.mk (isoDate y m dd) := by
      cases d
      exact congrArg String.mk hdata
    have hne' : ¬ (y = 1970 ∧ m = 1 ∧ dd = 1) := by
      rintro ⟨e1, e2, e3⟩
      subst e1 e2 e3
      exact hne (hstr.trans (by decide))
    obtain ⟨g1, g2⟩ := dueAtInitial_dateParse rt y m dd ⟨hy1, hy2⟩ ⟨hm1, hm2⟩ ⟨hd1, hd2⟩ hne'
    refine ⟨makeDay y (m - 1) dd * msPerDay, ?_, ?_⟩
    · have hs : d ≠ "" := by
        rw [hstr]
        exact fun h => isoDate_ne_nil y m dd (congrArg String.data h)
      unfold dueAtTimestamp
      rw [if_pos hs, hstr]
      exact g1
    · rw [hstr]
      exact g2

theorem dueAt_round_trip_witness :
    (saveEditedTodo sampleRuntime sampleIssue (initialState sampleIssue "2024-02-29")).calls =
      [Call.editIssue "t1" "Buy milk" "semi-skimmed" (some 1709164800000) 1] ∧
    ∃ t, dueAtTimestamp sampleRuntime "2024-02-29" = some t ∧
      dueAtInitial t = some "2024-02-29" :=
  ⟨by decide,
    (dueAt_round_trip sampleRuntime sampleIssue (initialState sampleIssue "2024-02-29")
      "2024-02-29" (by decide) (by decide)).2⟩

/-! ## Edit mode: Save, Edit and Cancel -/

theorem priorityInitial_eq (p : Nat) : priorityInitial p = p := by
  unfold priorityInitial
  split_ifs with h
  · rfl
  · omega

theorem dueAtInitial_range (t : Int) (d : String) (h : dueAtInitial t = some d) (h0 : t ≠ 0) :
    -maxTime ≤ t ∧ t ≤ maxTime := by
  unfold dueAtInitial toISOString timeClip at h
  rw [if_pos h0] at h
  by_contra hr
  rw [if_neg hr] at h
  simp at h

/-- The due-date argument computed from the draft a task is mounted with: the task's
due time rounded down to UTC midnight. -/
theorem dueAtTimestamp_dueAtInitial (rt : Runtime) (t : Int) (d : String)
    (h : dueAtInitial t = some d) : dueAtTimestamp rt d = some (t - t % msPerDay) := by
  by_cases h0 : t = 0
  · subst h0
    have : d = "" := by
      have h' : dueAtInitial 0 = some "" := by decide
      rw [h'] at h
      exact (Option.some.inj h).symm
    subst this
    rfl
  · obtain ⟨s, hs, hne, hp⟩ := dateParse_dueAtInitial rt t h0 (dueAtInitial_range t d h h0)
    rw [h] at hs
    cases hs
    unfold dueAtTimestamp
    rw [if_pos hne, hp]
    congr 1
    have := Int.ediv_add_emod t msPerDay
    have := Int.mul_comm msPerDay (t / msPerDay)
    omega

/-- C5 (the claim fails for a due time that is not UTC midnight): the sample task is due
at 1700000000000 (2023-11-14 22:13:20 UTC); editing only its message and pressing Enter
passes 1699920000000 (2023-11-14 00:00:00 UTC) to `editIssue`, not the task's due time. -/
theorem edit_message_truncates_due_time :
    mount sampleIssue = some (initialState sampleIssue "2023-11-14") ∧
    sampleIssue.due_at = 1700000000000 ∧
    (run sampleRuntime sampleIssue (initialState sampleIssue "2023-11-14")
      [Event.editAction, Event.changeMessage "Buy oat milk",
       Event.keyDown { key := "Enter", shiftKey := false }]).calls =
      [Call.editIssue "t1" "Buy oat milk" "semi-skimmed" (some 1699920000000) 1] := by
  decide

/-- C5 (amended): for every task and every new message text `m`, mounting the item,
entering edit mode, changing only the message draft to `m` and pressing Enter without
Shift invokes `editIssue` exactly once (and nothing else), with the task's id, `m`, the
task's description and priority, and the task's due time rounded down to UTC midnight,
which is the task's due time itself when that is a whole number of days (0 included);
the item is back in viewing mode. -/
theorem edit_message_and_enter (rt : Runtime) (issue : Issue) (s0 : State)
    (hm : mount issue = some s0) (m : String) :
    (run rt issue s0 [Event.editAction, Event.changeMessage m,
      Event.keyDown { key := "Enter", shiftKey := false }]).calls =
      [Call.editIssue issue.id m issue.description
        (some (issue.due_at - issue.due_at % msPerDay)) issue.priority] ∧
    (run rt issue s0 [Event.editAction, Event.changeMessage m,
      Event.keyDown { key := "Enter", shiftKey := false }]).editTodo = false ∧
    (issue.due_at % msPerDay = 0 →
      (run rt issue s0 [Event.editAction, Event.changeMessage m,
        Event.keyDown { key := "Enter", shiftKey := false }]).calls =
        [Call.editIssue issue.id m issue.description (some issue.due_at) issue.priority]) := by
  unfold mount at hm
  cases hd : dueAtInitial issue.due_at with
  | none => simp [hd] at hm
  | some d =>
    have hs0 : s0 = initialState issue d := by simpa [hd] using hm.symm
    subst hs0
    have hts := dueAtTimestamp_dueAtInitial rt issue.due_at d hd
    have hcalls : (run rt issue (initialState issue d) [Event.editAction, Event.changeMessage m,
        Event.keyDown { key := "Enter", shiftKey := false }]).calls =
        [Call.editIssue issue.id m issue.description
          (some (issue.due_at - issue.due_at % msPerDay)) issue.priority] := by
      simp [run, step, onKeyDown, saveEditedTodo, initialState, hts, priorityInitial_eq]
    refine ⟨hcalls, ?_, ?_⟩
    · simp [run, step, onKeyDown, saveEditedTodo, initialState]
    · intro hz
      rw [hcalls, hz, sub_zero]

theorem edit_message_and_enter_witness :
    (run sampleRuntime sampleIssue (initialState sampleIssue "2023-11-14")
      [Event.editAction, Event.changeMessage "Buy oat milk",
       Event.keyDown { key := "Enter", shiftKey := false }]).calls =
      [Call.editIssue "t1" "Buy oat milk" "semi-skimmed"
        (some (1700000000000 - 1700000000000 % msPerDay)) 1] :=
  (edit_message_and_enter sampleRuntime sampleIssue _ mount_sampleIssue "Buy oat milk").1

theorem drafts_step (rt : Runtime) (issue : Issue) (s : State) (e : Event)
    (he : isDraftChange e = false) :
    (step rt issue s e).message = s.message ∧ (step rt issue s e).description = s.description ∧
    (step rt issue s e).priority = s.priority ∧ (step rt issue s e).dueAt = s.dueAt := by
  cases e with
  | changeMessage v => simp [isDraftChange] at he
  | changeDescription v => simp [isDraftChange] at he
  | changePriority v => simp [isDraftChange] at he
  | changeDueAt v => simp [isDraftChange] at he
  | markAsDone => exact ⟨rfl, rfl, rfl, rfl⟩
  | completeToast => exact ⟨rfl, rfl, rfl, rfl⟩
  | undoCompleteTodo =>
    simp only [step, undoCompleteTodo, clearTimeout]
    cases s.completeTimeout <;> exact ⟨rfl, rfl, rfl, rfl⟩
  | removeTodo => exact ⟨rfl, rfl, rfl, rfl⟩
  | undoRemoveTodo =>
    simp only [step, undoRemoveTodo, clearTimeout]
    cases s.removeTimeout <;> exact ⟨rfl, rfl, rfl, rfl⟩
  | advance dt => exact ⟨rfl, rfl, rfl, rfl⟩
  | editAction => exact ⟨rfl, rfl, rfl, rfl⟩
  | cancelClick => exact ⟨rfl, rfl, rfl, rfl⟩
  | saveClick => exact ⟨rfl, rfl, rfl, rfl⟩
  | keyDown e =>
    simp only [step, onKeyDown, saveEditedTodo]
    split_ifs <;> exact ⟨rfl, rfl, rfl, rfl⟩
  | editAssignee => exact ⟨rfl, rfl, rfl, rfl⟩
  | toggleComments =>
    simp only [step, toggleComments, commentsEffect]
    split_ifs <;> exact ⟨rfl, rfl, rfl, rfl⟩
  | changeNewComment v => exact ⟨rfl, rfl, rfl, rfl⟩
  | handleAddComment =>
    simp only [step, handleAddComment]
    split_ifs <;> exact ⟨rfl, rfl, rfl, rfl⟩
  | handleDeleteComment c => exact ⟨rfl, rfl, rfl, rfl⟩
  | resolve i r =>
    simp only [step, resolve]
    cases s.pending.get? i with
    | none => exact ⟨rfl, rfl, rfl, rfl⟩
    | some p => cases p <;> cases r <;> exact ⟨rfl, rfl, rfl, rfl⟩

theorem drafts_run (rt : Runtime) (issue : Issue) (es : List Event)
    (hes : ∀ e ∈ es, isDraftChange e = false) :
    ∀ s : State, (run rt issue s es).message = s.message ∧
      (run rt issue s es).description = s.description ∧
      (run rt issue s es).priority = s.priority ∧ (run rt issue s es).dueAt = s.dueAt := by
  induction es with
  | nil => intro s; exact ⟨rfl, rfl, rfl, rfl⟩
  | cons e es ih =>
    intro s
    rw [run_cons]
    obtain ⟨h1, h2, h3, h4⟩ := ih (fun x hx => hes x (List.mem_cons_of_mem _ hx))
      (step rt issue s e)
    obtain ⟨g1, g2, g3, g4⟩ := drafts_step rt issue s e (hes e (List.mem_cons_self _ _))
    exact ⟨h1.trans g1, h2.trans g2, h3.trans g3, h4.trans g4⟩

/-- C6 (the claim fails): drafts edited and then abandoned with Cancel are still there
when edit mode is entered again; they are not reset to the task's values. -/
theorem cancel_keeps_abandoned_drafts :
    mount sampleIssue = some (initialState sampleIssue "2023-11-14") ∧
    (run sampleRuntime sampleIssue (initialState sampleIssue "2023-11-14")
      [Event.editAction, Event.changeMessage "abandoned", Event.changeDescription "edits",
       Event.changePriority 2, Event.changeDueAt "2030-01-01", Event.cancelClick,
       Event.editAction]).message = "abandoned" ∧
    (run sampleRuntime sampleIssue (initialState sampleIssue "2023-11-14")
      [Event.editAction, Event.changeMessage "abandoned", Event.changeDescription "edits",
       Event.changePriority 2, Event.changeDueAt "2030-01-01", Event.cancelClick,
       Event.editAction]).description = "edits" ∧
    (run sampleRuntime sampleIssue (initialState sampleIssue "2023-11-14")
      [Event.editAction, Event.changeMessage "abandoned", Event.changeDescription "edits",
       Event.changePriority 2, Event.changeDueAt "2030-01-01", Event.cancelClick,
       Event.editAction]).priority = 2 ∧
    (run sampleRuntime sampleIssue (initialState sampleIssue "2023-11-14")
      [Event.editAction, Event.changeMessage "abandoned", Event.changeDescription "edits",
       Event.changePriority 2, Event.changeDueAt "2030-01-01", Event.cancelClick,
       Event.editAction]).dueAt = "2030-01-01" ∧
    sampleIssue.message ≠ "abandoned" ∧ sampleIssue.description ≠ "edits" ∧
    sampleIssue.priority ≠ 2 ∧ dueAtInitial sampleIssue.due_at ≠ some "2030-01-01" := by
  decide

/-- C6 (amended): the "Edit todo" action only switches to edit mode and leaves the drafts
as they are, so in every state reached from mount by events that change no draft the
drafts it shows are the values derived from the task at mount; Cancel only switches back
to viewing mode, without calling `editIssue` and without touching the drafts: after
editing the drafts, cancelling and entering edit mode again, the message, description,
priority and due-date drafts are the abandoned edits. -/
theorem edit_and_cancel_keep_drafts (rt : Runtime) (issue : Issue) (s0 : State)
    (hm : mount issue = some s0) (es : List Event) (hes : ∀ e ∈ es, isDraftChange e = false)
    (m d due : String) (p : Nat) :
    ((run rt issue s0 (es ++ [Event.editAction])).editTodo = true ∧
      (run rt issue s0 (es ++ [Event.editAction])).message = issue.message ∧
      (run rt issue s0 (es ++ [Event.editAction])).description = issue.description ∧
      (run rt issue s0 (es ++ [Event.editAction])).priority = issue.priority ∧
      some (run rt issue s0 (es ++ [Event.editAction])).dueAt = dueAtInitial issue.due_at) ∧
    ((run rt issue s0 (es ++ [Event.editAction, Event.changeMessage m,
        Event.changeDescription d, Event.changePriority p, Event.changeDueAt due,
        Event.cancelClick])).editTodo = false ∧
      (run rt issue s0 (es ++ [Event.editAction, Event.changeMessage m,
        Event.changeDescription d, Event.changePriority p, Event.changeDueAt due,
        Event.cancelClick])).calls = (run rt issue s0 es).calls) ∧
    ((run rt issue s0 (es ++ [Event.editAction, Event.changeMessage m,
        Event.changeDescription d, Event.changePriority p, Event.changeDueAt due,
        Event.cancelClick, Event.editAction])).editTodo = true ∧
      (run rt issue s0 (es ++ [Event.editAction, Event.changeMessage m,
        Event.changeDescription d, Event.changePriority p, Event.changeDueAt due,
        Event.cancelClick, Event.editAction])).message = m ∧
      (run rt issue s0 (es ++ [Event.editAction, Event.changeMessage m,
        Event.changeDescription d, Event.changePriority p, Event.changeDueAt due,
        Event.cancelClick, Event.editAction])).description = d ∧
      (run rt issue s0 (es ++ [Event.editAction, Event.changeMessage m,
        Event.changeDescription d, Event.changePriority p, Event.changeDueAt due,
        Event.cancelClick, Event.editAction])).priority = p ∧
      (run rt issue s0 (es ++ [Event.editAction, Event.changeMessage m,
        Event.changeDescription d, Event.changePriority p, Event.changeDueAt due,
        Event.cancelClick, Event.editAction])).dueAt = due) := by
  unfold mount at hm
  cases hd : dueAtInitial issue.due_at with
  | none => simp [hd] at hm
  | some d0 =>
    have hs0 : s0 = initialState issue d0 := by simpa [hd] using hm.symm
    subst hs0
    obtain ⟨h1, h2, h3, h4⟩ := drafts_run rt issue es hes (initialState issue d0)
    refine ⟨?_, ?_, ?_⟩
    · rw [run_append]
      refine ⟨rfl, ?_, ?_, ?_, ?_⟩
      · exact h1
      · exact h2
      · exact h3.trans (priorityInitial_eq _)
      · exact congrArg some h4
    · rw [run_append]
      exact ⟨rfl, rfl⟩
    · rw [run_append]
      exact ⟨rfl, rfl, rfl, rfl, rfl⟩

theorem edit_and_cancel_keep_drafts_witness :
    (run sampleRuntime sampleIssue (initialState sampleIssue "2023-11-14")
      ([Event.toggleComments, Event.advance 10] ++ [Event.editAction])).message = "Buy milk" ∧
    (run sampleRuntime sampleIssue (initialState sampleIssue "2023-11-14")
      ([Event.toggleComments, Event.advance 10] ++ [Event.editAction, Event.changeMessage "a",
        Event.changeDescription "b", Event.changePriority 0, Event.changeDueAt "",
        Event.cancelClick, Event.editAction])).message = "a" :=
  ⟨(edit_and_cancel_keep_drafts sampleRuntime sampleIssue _ mount_sampleIssue
      [Event.toggleComments, Event.advance 10] (by decide) "a" "b" "" 0).1.2.1,
   (edit_and_cancel_keep_drafts sampleRuntime sampleIssue _ mount_sampleIssue
      [Event.toggleComments, Event.advance 10] (by decide) "a" "b" "" 0).2.2.2.1⟩



/-! ## Keyboard contract of edit mode -/

/-- C7: for a key-down event received in edit mode, plain Enter saves (one `editIssue`
call with the drafts, mode becomes viewing); Escape cancels (mode becomes viewing,
nothing is called, nothing else changes); Shift+Enter and every key other than Enter and
Escape leave the state as it is (no call, still editing). -/
theorem onKeyDown_contract (rt : Runtime) (issue : Issue) (s : State) (e : KeyEvent)
    (hs : s.editTodo = true) :
    (e.key = "Enter" ∧ e.shiftKey = false →
      (onKeyDown rt issue e s).calls = s.calls ++
        [Call.editIssue issue.id s.message s.description (dueAtTimestamp rt s.dueAt)
          s.priority] ∧
      editIssueCalls (onKeyDown rt issue e s).calls = editIssueCalls s.calls ++
        [Call.editIssue issue.id s.message s.description (dueAtTimestamp rt s.dueAt)
          s.priority] ∧
      (onKeyDown rt issue e s).editTodo = false) ∧
    (e.key = "Escape" →
      onKeyDown rt issue e s = { s with editTodo := false } ∧
      (onKeyDown rt issue e s).calls = s.calls ∧
      (onKeyDown rt issue e s).editTodo = false) ∧
    (e.key = "Enter" ∧ e.shiftKey = true →
      onKeyDown rt issue e s = s ∧ (onKeyDown rt issue e s).editTodo = true) ∧
    (e.key ≠ "Enter" ∧ e.key ≠ "Escape" →
      onKeyDown rt issue e s = s ∧ (onKeyDown rt issue e s).editTodo = true) := by
  have hne : ("Enter" : String) ≠ "Escape" := by decide
  refine ⟨?_, ?_, ?_, ?_⟩
  · rintro ⟨hk, hsh⟩
    simp [onKeyDown, saveEditedTodo, hk, hsh, hne, editIssueCalls]
  · intro hk
    have hk' : e.key ≠ "Enter" := fun h => hne (h.symm.trans hk)
    simp [onKeyDown, hk, hk']
  · rintro ⟨hk, hsh⟩
    simp [onKeyDown, hk, hsh, hne, hs]
  · rintro ⟨hk1, hk2⟩
    simp [onKeyDown, hk1, hk2, hs]

theorem onKeyDown_contract_witness :
    (onKeyDown sampleRuntime sampleIssue { key := "Enter", shiftKey := false }
      { initialState sampleIssue "2023-11-14" with editTodo := true }).calls =
      [Call.editIssue "t1" "Buy milk" "semi-skimmed" (some 1699920000000) 1] ∧
    onKeyDown sampleRuntime sampleIssue { key := "a", shiftKey := false }
      { initialState sampleIssue "2023-11-14" with editTodo := true } =
      { initialState sampleIssue "2023-11-14" with editTodo := true } :=
  ⟨((onKeyDown_contract sampleRuntime sampleIssue
      { initialState sampleIssue "2023-11-14" with editTodo := true }
      { key := "Enter", shiftKey := false } rfl).1 ⟨rfl, rfl⟩).1,
   ((onKeyDown_contract sampleRuntime sampleIssue
      { initialState sampleIssue "2023-11-14" with editTodo := true }
      { key := "a", shiftKey := false } rfl).2.2.2 ⟨by decide, by decide⟩).1⟩

/-! ## Status line -/

/-- C8 (the claim fails for a task without originating user): the block that sets the
status line is guarded by `if (issue.user)`, so a task with list `in` and position 2 but
no user gets the empty status line, and nothing is rendered for it; and for the same
task with a user nothing is rendered either while the item is in edit mode. -/
theorem status_line_needs_user :
    anonymousIssue.list = "in" ∧ anonymousIssue.position = 2 ∧
    listPositionMessage sampleNumberRuntime anonymousIssue = "" ∧
    renderListDiv sampleNumberRuntime anonymousIssue
      (initialState anonymousIssue "2023-11-14") = none ∧
    listPositionMessage sampleNumberRuntime anonymousIssue ≠ "In Inbox on position 3." ∧
    sampleIssue.list = "in" ∧ sampleIssue.position = 2 ∧
    renderListDiv sampleNumberRuntime sampleIssue
      (run sampleRuntime sampleIssue (initialState sampleIssue "2023-11-14")
        [Event.editAction]) = none := by
  decide

theorem append_ne_empty (a b : String) (h : a ≠ "") : a ++ b ≠ "" := by
  intro hab
  apply h
  have h1 : (a ++ b).data = [] := congrArg String.data hab
  rw [String.data_append] at h1
  have h2 : a.data = [] := (List.append_eq_nil.mp h1).1
  cases a
  simp_all

/-- C8 (amended): for every task that has an originating user and a 0-based position
`p` below 2^53, where `p + 1` is exact, the status line is selected by the list tag:
unset gives "Accepted. On position (p+1).", `in` gives "In Inbox on position (p+1).",
and `out` or any other tag gives no position text; for a task without originating user
there is no position text whatever the list tag.  The status line is rendered outside
edit mode when it is not empty, and nothing is rendered for it in edit mode. -/
theorem listPositionMessage_spec (nr : NumberRuntime) (issue : Issue) (s : State) :
    (issue.user ≠ "" →
      (issue.list = "" →
        (issue.position < 9007199254740992 →
          listPositionMessage nr issue =
            "Accepted. On position " ++ toString (issue.position + 1) ++ ".") ∧
        (s.editTodo = false →
          renderListDiv nr issue s = some (listPositionMessage nr issue))) ∧
      (issue.list = "in" →
        (issue.position < 9007199254740992 →
          listPositionMessage nr issue =
            "In Inbox on position " ++ toString (issue.position + 1) ++ ".") ∧
        (s.editTodo = false →
          renderListDiv nr issue s = some (listPositionMessage nr issue))) ∧
      (issue.list = "out" →
        listPositionMessage nr issue = "" ∧ renderListDiv nr issue s = none) ∧
      (issue.list ≠ "" ∧ issue.list ≠ "in" ∧ issue.list ≠ "out" →
        listPositionMessage nr issue = "" ∧ renderListDiv nr issue s = none)) ∧
    (issue.user = "" →
      listPositionMessage nr issue = "" ∧ renderListDiv nr issue s = none) ∧
    (s.editTodo = true → renderListDiv nr issue s = none) := by
  have hin : ("in" : String) ≠ "" := by decide
  have hout : ("out" : String) ≠ "" := by decide
  have hoi : ("out" : String) ≠ "in" := by decide
  have ha : ∀ t : String, "Accepted. On position " ++ t ++ "." ≠ "" := fun t => by
    rw [String.append_assoc]; exact append_ne_empty _ _ (by decide)
  have hb : ∀ t : String, "In Inbox on position " ++ t ++ "." ≠ "" := fun t => by
    rw [String.append_assoc]; exact append_ne_empty _ _ (by decide)
  have hnone : listPositionMessage nr issue = "" → renderListDiv nr issue s = none := by
    intro h
    unfold renderListDiv
    rw [h]
    cases s.editTodo <;> simp
  refine ⟨fun hu => ⟨?_, ?_, ?_, ?_⟩, ?_, ?_⟩
  · intro hl
    have h1 : listPositionMessage nr issue =
        "Accepted. On position " ++ positionText nr issue.position ++ "." := by
      simp [listPositionMessage, hu, hl]
    refine ⟨fun hp => ?_, fun he => ?_⟩
    · rw [h1, positionText, if_pos hp]
    · unfold renderListDiv
      rw [he, h1]
      simp only [Bool.not_false, if_true]
      rw [if_pos (ha _)]
  · intro hl
    have h1 : listPositionMessage nr issue =
        "In Inbox on position " ++ positionText nr issue.position ++ "." := by
      simp [listPositionMessage, hu, hl, hin]
    refine ⟨fun hp => ?_, fun he => ?_⟩
    · rw [h1, positionText, if_pos hp]
    · unfold renderListDiv
      rw [he, h1]
      simp only [Bool.not_false, if_true]
      rw [if_pos (hb _)]
  · intro hl
    have h1 : listPositionMessage nr issue = "" := by
      simp [listPositionMessage, hu, hl, hout, hoi]
    exact ⟨h1, hnone h1⟩
  · rintro ⟨h1, h2, h3⟩
    have h4 : listPositionMessage nr issue = "" := by
      simp [listPositionMessage, hu, h1, h2, h3]
    exact ⟨h4, hnone h4⟩
  · intro hu
    have h1 : listPositionMessage nr issue = "" := by
      simp [listPositionMessage, hu]
    exact ⟨h1, hnone h1⟩
  · intro he
    unfold renderListDiv
    rw [he]
    rfl

theorem listPositionMessage_spec_witness :
    listPositionMessage sampleNumberRuntime sampleIssue = "In Inbox on position 3." ∧
    renderListDiv sampleNumberRuntime sampleIssue (initialState sampleIssue "2023-11-14") =
      some "In Inbox on position 3." := by
  have h := ((listPositionMessage_spec sampleNumberRuntime sampleIssue
    (initialState sampleIssue "2023-11-14")).1 (by decide)).2.1 (by decide)
  have h3 : "In Inbox on position " ++ toString (sampleIssue.position + 1) ++ "."
      = "In Inbox on position 3." := by decide
  have h4 := (h.1 (by decide)).trans h3
  exact ⟨h4, (h.2 rfl).trans (congrArg some h4)⟩

/-! ## Comment panel -/

theorem get?_append_length {α : Type} (l : List α) (x : α) :
    (l ++ [x]).get? l.length = some x := by
  induction l with
  | nil => rfl
  | cons a l ih => simp

theorem eraseIdx_append_length {α : Type} (l : List α) (x : α) :
    (l ++ [x]).eraseIdx l.length = l := by
  induction l with
  | nil => rfl
  | cons a l ih => simpa using ih

/-- C9: expanding the comment panel of a collapsed item sets `loadingComments`, calls
`fetchComments` once, with the task's id, and leaves that one promise waiting; when the
promise resolves, `loadingComments` is false again, and the cached comments are the
result if it carries no error marker and the former comments if it does; nothing else
is called. -/
theorem expand_comments_fetches (issue : Issue) (s : State) (hs : s.showComments = false)
    (r : Reply) :
    (toggleComments issue s).showComments = true ∧
    (toggleComments issue s).loadingComments = true ∧
    (toggleComments issue s).calls = s.calls ++ [Call.fetchComments issue.id] ∧
    (toggleComments issue s).pending = s.pending ++ [Pending.effectFetch] ∧
    (toggleComments issue s).comments = s.comments ∧
    (resolve issue s.pending.length r (toggleComments issue s)).loadingComments = false ∧
    (resolve issue s.pending.length r (toggleComments issue s)).comments =
      (match r with
        | Reply.ok data => data
        | Reply.error => s.comments) ∧
    (resolve issue s.pending.length r (toggleComments issue s)).calls =
      s.calls ++ [Call.fetchComments issue.id] ∧
    (resolve issue s.pending.length r (toggleComments issue s)).pending = s.pending := by
  have ht : toggleComments issue s =
      { s with
        showComments := true
        loadingComments := true
        calls := s.calls ++ [Call.fetchComments issue.id]
        pending := s.pending ++ [Pending.effectFetch] } := by
    simp [toggleComments, commentsEffect, hs]
  rw [ht]
  refine ⟨rfl, rfl, rfl, rfl, rfl, ?_, ?_, ?_, ?_⟩ <;>
    cases r <;>
    simp [resolve, continueWith, get?_append_length, eraseIdx_append_length]

theorem expand_comments_fetches_witness :
    (toggleComments sampleIssue (initialState sampleIssue "2023-11-14")).calls =
      [Call.fetchComments "t1"] ∧
    (resolve sampleIssue 0 (Reply.ok [sampleComment])
      (toggleComments sampleIssue (initialState sampleIssue "2023-11-14"))).comments =
      [sampleComment] :=
  ⟨(expand_comments_fetches sampleIssue (initialState sampleIssue "2023-11-14") rfl
      (Reply.ok [sampleComment])).2.2.1,
   (expand_comments_fetches sampleIssue (initialState sampleIssue "2023-11-14") rfl
      (Reply.ok [sampleComment])).2.2.2.2.2.2.1⟩

theorem dropWhile_eq_nil {α : Type} (p : α → Bool) (l : List α) :
    l.dropWhile p = [] ↔ ∀ x ∈ l, p x = true := by
  induction l with
  | nil => simp
  | cons a l ih =>
    by_cases h : p a = true
    · simp [List.dropWhile, h, ih]
    · simp [List.dropWhile, h]

/-- The trimmed string is empty exactly when every character is white space. -/
theorem jsTrim_eq_empty (s : String) :
    jsTrim s = "" ↔ ∀ c ∈ s.data, isJsWhiteSpace c = true := by
  unfold jsTrim
  constructor
  · intro h
    have h1 : ((s.data.dropWhile isJsWhiteSpace).reverse.dropWhile isJsWhiteSpace).reverse
        = [] := congrArg String.data h
    rw [List.reverse_eq_nil_iff, dropWhile_eq_nil] at h1
    have h2 : s.data.dropWhile isJsWhiteSpace = [] := by
      cases hd : s.data.dropWhile isJsWhiteSpace with
      | nil => rfl
      | cons a l =>
        exfalso
        have ha : isJsWhiteSpace a = true := h1 a (by simp [hd])
        have hn : ∀ (l' : List Char), l'.dropWhile isJsWhiteSpace = a :: l → False := by
          intro l'
          induction l' with
          | nil => intro h'; simp at h'
          | cons b l' ih =>
            intro h'
            by_cases hb : isJsWhiteSpace b = true
            · simp only [List.dropWhile, hb] at h'; exact ih h'
            · simp only [List.dropWhile, hb] at h'
              rw [(List.cons.inj h').1] at hb
              exact hb ha
        exact hn _ hd
    exact (dropWhile_eq_nil _ _).mp h2
  · intro h
    have h2 : s.data.dropWhile isJsWhiteSpace = [] := (dropWhile_eq_nil _ _).mpr h
    rw [h2]
    rfl

/-- C10: with a comment draft that is empty or all white space, `handleAddComment` does
nothing: the state, and with it the call log, the draft and the cached comments, is
unchanged; with a draft that has a character other than white space it calls
`addComment` once, with the task's id and the draft, calls nothing else, and leaves the
draft and the cached comments as they are while the call is pending. -/
theorem handleAddComment_blank_or_not (issue : Issue) (s : State) :
    ((∀ c ∈ s.newComment.data, isJsWhiteSpace c = true) → handleAddComment issue s = s) ∧
    ((∃ c ∈ s.newComment.data, isJsWhiteSpace c = false) →
      (handleAddComment issue s).calls = s.calls ++ [Call.addComment issue.id s.newComment] ∧
      (handleAddComment issue s).pending = s.pending ++ [Pending.addResult] ∧
      (handleAddComment issue s).newComment = s.newComment ∧
      (handleAddComment issue s).comments = s.comments) := by
  constructor
  · intro h
    unfold handleAddComment
    rw [if_pos ((jsTrim_eq_empty _).mpr h)]
  · rintro ⟨c, hc, hw⟩
    have hne : ¬ jsTrim s.newComment = "" := by
      intro h
      have := (jsTrim_eq_empty _).mp h c hc
      rw [hw] at this
      exact Bool.false_ne_true this
    unfold handleAddComment
    rw [if_neg hne]
    exact ⟨rfl, rfl, rfl, rfl⟩

theorem handleAddComment_blank_or_not_witness :
    handleAddComment sampleIssue
        { initialState sampleIssue "2023-11-14" with newComment := " \t\n" } =
      { initialState sampleIssue "2023-11-14" with newComment := " \t\n" } ∧
    (handleAddComment sampleIssue
        { initialState sampleIssue "2023-11-14" with newComment := " ok " }).calls =
      [Call.addComment "t1" " ok "] :=
  ⟨(handleAddComment_blank_or_not sampleIssue
      { initialState sampleIssue "2023-11-14" with newComment := " \t\n" }).1 (by decide),
   ((handleAddComment_blank_or_not sampleIssue
      { initialState sampleIssue "2023-11-14" with newComment := " ok " }).2
        ⟨'o', by decide, by decide⟩).1⟩

/-! ## Adding a comment -/

theorem handleAddComment_of_nonblank (issue : Issue) (s : State)
    (h : ∃ c ∈ s.newComment.data, isJsWhiteSpace c = false) :
    handleAddComment issue s =
      { s with
        calls := s.calls ++ [Call.addComment issue.id s.newComment]
        pending := s.pending ++ [Pending.addResult] } := by
  obtain ⟨c, hc, hw⟩ := h
  have hne : ¬ jsTrim s.newComment = "" := by
    intro h0
    have := (jsTrim_eq_empty _).mp h0 c hc
    rw [hw] at this
    exact Bool.false_ne_true this
  unfold handleAddComment
  rw [if_neg hne]

/-- C11: for a draft with a character other than white space, once `handleAddComment`
has called `addComment`: if that call resolves without error marker, the draft is
cleared and `fetchComments` is called with the task's id, and when this fetch resolves
the cached comments are its result if it carries no error marker and unchanged if it
does; if `addComment` resolves with an error marker, the draft is retained,
`fetchComments` is not called, and the cached comments are unchanged. -/
theorem addComment_then_refetch (issue : Issue) (s : State)
    (h : ∃ c ∈ s.newComment.data, isJsWhiteSpace c = false) (res : List Comment)
    (r : Reply) :
    ((resolve issue s.pending.length (Reply.ok res) (handleAddComment issue s)).newComment
        = "" ∧
      (resolve issue s.pending.length (Reply.ok res) (handleAddComment issue s)).calls =
        s.calls ++ [Call.addComment issue.id s.newComment, Call.fetchComments issue.id] ∧
      (resolve issue s.pending.length (Reply.ok res) (handleAddComment issue s)).pending =
        s.pending ++ [Pending.refetch] ∧
      (resolve issue s.pending.length (Reply.ok res) (handleAddComment issue s)).comments =
        s.comments) ∧
    ((resolve issue s.pending.length r
        (resolve issue s.pending.length (Reply.ok res) (handleAddComment issue s))).comments =
        (match r with
          | Reply.ok data => data
          | Reply.error => s.comments) ∧
      (resolve issue s.pending.length r
        (resolve issue s.pending.length (Reply.ok res) (handleAddComment issue s))).newComment
        = "" ∧
      (resolve issue s.pending.length r
        (resolve issue s.pending.length (Reply.ok res) (handleAddComment issue s))).calls =
        s.calls ++ [Call.addComment issue.id s.newComment, Call.fetchComments issue.id] ∧
      (resolve issue s.pending.length r
        (resolve issue s.pending.length (Reply.ok res) (handleAddComment issue s))).pending =
        s.pending) ∧
    ((resolve issue s.pending.length Reply.error (handleAddComment issue s)).newComment =
        s.newComment ∧
      (resolve issue s.pending.length Reply.error (handleAddComment issue s)).calls =
        s.calls ++ [Call.addComment issue.id s.newComment] ∧
      (resolve issue s.pending.length Reply.error (handleAddComment issue s)).comments =
        s.comments ∧
      (resolve issue s.pending.length Reply.error (handleAddComment issue s)).pending =
        s.pending) := by
  rw [handleAddComment_of_nonblank issue s h]
  have hok : resolve issue s.pending.length (Reply.ok res)
      { s with
        calls := s.calls ++ [Call.addComment issue.id s.newComment]
        pending := s.pending ++ [Pending.addResult] } =
      { s with
        newComment := ""
        calls := s.calls ++ [Call.addComment issue.id s.newComment, Call.fetchComments issue.id]
        pending := s.pending ++ [Pending.refetch] } := by
    simp [resolve, continueWith, get?_append_length, eraseIdx_append_length]
  rw [hok]
  refine ⟨⟨rfl, rfl, rfl, rfl⟩, ?_, ?_⟩
  · cases r <;>
      simp [resolve, continueWith, get?_append_length, eraseIdx_append_length]
  · simp [resolve, continueWith, get?_append_length, eraseIdx_append_length]

theorem addComment_then_refetch_witness :
    (resolve sampleIssue 0 (Reply.ok [sampleComment])
      (resolve sampleIssue 0 (Reply.ok [])
        (handleAddComment sampleIssue
          { initialState sampleIssue "2023-11-14" with newComment := "on it" }))).comments =
      [sampleComment] ∧
    (resolve sampleIssue 0 Reply.error
        (handleAddComment sampleIssue
          { initialState sampleIssue "2023-11-14" with newComment := "on it" })).newComment =
      "on it" :=
  ⟨(addComment_then_refetch sampleIssue
      { initialState sampleIssue "2023-11-14" with newComment := "on it" }
      ⟨'o', by decide, by decide⟩ [] (Reply.ok [sampleComment])).2.1.1,
   (addComment_then_refetch sampleIssue
      { initialState sampleIssue "2023-11-14" with newComment := "on it" }
      ⟨'o', by decide, by decide⟩ [] (Reply.ok [sampleComment])).2.2.1⟩

/-! ## The delete icon of a comment -/

theorem deleteIconRendered_iff (u : String) (s : State) (c : Comment) :
    deleteIconRendered u s c = true ↔
      s.showComments = true ∧ s.loadingComments = false ∧ c ∈ s.comments ∧ c.user_id = u := by
  unfold deleteIconRendered renderCommentsSection
  cases hsc : s.showComments
  · simp
  · cases hl : s.loadingComments
    · simp only [if_true, Bool.not_false, List.contains_iff_exists_mem_beq, List.mem_map,
        beq_iff_eq, true_and, and_true]
      constructor
      · rintro ⟨a, ⟨c', hc', rfl⟩, h⟩
        have h1 : c = c' := congrArg CommentItem.comment h
        have h2 : true = decide (c'.user_id = u) := congrArg CommentItem.deleteIcon h
        subst h1
        exact ⟨hc', of_decide_eq_true h2.symm⟩
      · rintro ⟨hc, hu⟩
        exact ⟨_, ⟨c, hc, rfl⟩, by simp [hu]⟩
    · simp

/-- C12 (the claim fails while the panel is collapsed or loading): after the comments
have been fetched and the panel is collapsed again, the cached comment of the current
user has no delete icon, as nothing of the panel is rendered; and when the panel is
expanded once more the icon is not rendered while the new fetch is pending. -/
theorem delete_icon_hidden_when_collapsed_or_loading :
    sampleComment ∈ (run sampleRuntime sampleIssue (initialState sampleIssue "2023-11-14")
      [Event.toggleComments, Event.resolve 0 (Reply.ok [sampleComment]),
       Event.toggleComments]).comments ∧
    sampleComment.user_id = "u1" ∧
    deleteIconRendered "u1" (run sampleRuntime sampleIssue (initialState sampleIssue "2023-11-14")
      [Event.toggleComments, Event.resolve 0 (Reply.ok [sampleComment]),
       Event.toggleComments]) sampleComment = false ∧
    sampleComment ∈ (run sampleRuntime sampleIssue (initialState sampleIssue "2023-11-14")
      [Event.toggleComments, Event.resolve 0 (Reply.ok [sampleComment]),
       Event.toggleComments, Event.toggleComments]).comments ∧
    deleteIconRendered "u1" (run sampleRuntime sampleIssue (initialState sampleIssue "2023-11-14")
      [Event.toggleComments, Event.resolve 0 (Reply.ok [sampleComment]),
       Event.toggleComments, Event.toggleComments]) sampleComment = false := by
  decide

/-- C12 (amended): for every view state, every cached comment `c` and every current
user id `u`, the delete icon of `c` is rendered if and only if the comment panel is
expanded, the comments are not loading, and the author id of `c` equals `u`; so in an
expanded panel that is not loading it is rendered exactly for the comments of `u`. -/
theorem delete_icon_iff_author (u : String) (s : State) (c : Comment)
    (hc : c ∈ s.comments) :
    (deleteIconRendered u s c = true ↔
      s.showComments = true ∧ s.loadingComments = false ∧ c.user_id = u) ∧
    (s.showComments = true → s.loadingComments = false →
      (deleteIconRendered u s c = true ↔ c.user_id = u)) := by
  have h := deleteIconRendered_iff u s c
  refine ⟨?_, ?_⟩
  · rw [h]
    exact ⟨fun ⟨a, b, _, d⟩ => ⟨a, b, d⟩, fun ⟨a, b, d⟩ => ⟨a, b, hc, d⟩⟩
  · intro h1 h2
    rw [h]
    exact ⟨fun ⟨_, _, _, d⟩ => d, fun d => ⟨h1, h2, hc, d⟩⟩

theorem delete_icon_iff_author_witness :
    (deleteIconRendered "u1" (run sampleRuntime sampleIssue
        (initialState sampleIssue "2023-11-14")
        [Event.toggleComments, Event.resolve 0 (Reply.ok [sampleComment])]) sampleComment
      = true ↔ sampleComment.user_id = "u1") ∧
    (deleteIconRendered "u2" (run sampleRuntime sampleIssue
        (initialState sampleIssue "2023-11-14")
        [Event.toggleComments, Event.resolve 0 (Reply.ok [sampleComment])]) sampleComment
      = true ↔ sampleComment.user_id = "u2") :=
  ⟨(delete_icon_iff_author "u1" (run sampleRuntime sampleIssue
      (initialState sampleIssue "2023-11-14")
      [Event.toggleComments, Event.resolve 0 (Reply.ok [sampleComment])]) sampleComment
      (by decide)).2 (by decide) (by decide),
   (delete_icon_iff_author "u2" (run sampleRuntime sampleIssue
      (initialState sampleIssue "2023-11-14")
      [Event.toggleComments, Event.resolve 0 (Reply.ok [sampleComment])]) sampleComment
      (by decide)).2 (by decide) (by decide)⟩

/-! ## Permission-gated elements -/

/-- C13 (the claim fails in edit mode): with every action permitted, an item in edit
mode shows no accept button and no action menu, so none of the items `Accept todo`,
`Bump`, `Edit todo`, `Assign to…` and `Delete todo` is visible. -/
theorem edit_mode_hides_accept_and_menu :
    (run sampleRuntime sampleIssue (initialState sampleIssue "2023-11-14")
      [Event.editAction]).editTodo = true ∧
    allowAll.canAccept "my" = true ∧
    renderAcceptButton allowAll "my" sampleIssue
      (run sampleRuntime sampleIssue (initialState sampleIssue "2023-11-14")
        [Event.editAction]) = false ∧
    renderMenu allowAll "my" sampleIssue
      (run sampleRuntime sampleIssue (initialState sampleIssue "2023-11-14")
        [Event.editAction]) = none ∧
    menuShows allowAll "my" sampleIssue
      (run sampleRuntime sampleIssue (initialState sampleIssue "2023-11-14")
        [Event.editAction]) "Accept todo" = false ∧
    menuShows allowAll "my" sampleIssue
      (run sampleRuntime sampleIssue (initialState sampleIssue "2023-11-14")
        [Event.editAction]) "Edit todo" = false ∧
    menuShows allowAll "my" sampleIssue
      (run sampleRuntime sampleIssue (initialState sampleIssue "2023-11-14")
        [Event.editAction]) "Assign to…" = false := by
  decide

/-- C13 (amended): for every view state, list context and task, the complete button is
shown iff `canComplete(list)`; the accept button is shown iff the item is not in edit
mode and `canAccept(list)`; and the action menu exists only outside edit mode, where its
item `Accept todo` is visible iff `canAccept(list)`, `Bump` iff
`canBump(list, task.list)`, `Delete todo` iff `canRemove(list, task.list)`, and
`Edit todo` and `Assign to…` always. -/
theorem visibility_by_permission (perm : Permissions) (list : String) (issue : Issue)
    (s : State) :
    renderCompleteButton perm list = perm.canComplete list ∧
    renderAcceptButton perm list issue s = (!s.editTodo && perm.canAccept list) ∧
    menuShows perm list issue s "Accept todo" = (!s.editTodo && perm.canAccept list) ∧
    menuShows perm list issue s "Bump" = (!s.editTodo && perm.canBump list issue.list) ∧
    menuShows perm list issue s "Delete todo" =
      (!s.editTodo && perm.canRemove list issue.list) ∧
    menuShows perm list issue s "Edit todo" = !s.editTodo ∧
    menuShows perm list issue s "Assign to…" = !s.editTodo := by
  unfold renderCompleteButton renderAcceptButton renderActionButtons menuShows renderMenu
  generalize perm.canComplete list = cc
  generalize perm.canAccept list = ca
  generalize perm.canBump list issue.list = cb
  generalize perm.canRemove list issue.list = cr
  generalize s.editTodo = e
  cases cc <;> cases ca <;> cases cb <;> cases cr <;> cases e <;> decide

/-! ## Creation date and time -/

theorem substrLast2_padded :
    ∀ n, n < 60 → substrLast2 ("0" ++ toString n) = String.mk (pad2 n) := by
  decide

theorem monthName_table :
    ∀ m, m < 12 → MONTHS.get? m = some (MONTHS.getD m "undefined") := by
  decide

/-- The components of a local time are in their ranges. -/
theorem localDate_ranges (tza t : Int) :
    (localDate tza t).month < 12 ∧ (localDate tza t).minutes < 60 ∧
      (localDate tza t).seconds < 60 ∧ (localDate tza t).hours < 24 := by
  refine ⟨monthFromDay_lt _, ?_, ?_, ?_⟩ <;> exact Nat.mod_lt _ (by decide)

/-- C14: for local components with month index below 12 and minute and second below 60,
`formattedDate` is the entry of the table `MONTHS` (Jan to Dec) at the month index,
a blank, the day, a comma and a blank, and the year; `formattedTime` is the hour, a
colon, the minute, a colon, and the second, where minute and second are written with
exactly two decimal digits, zero-padded on the left, whose values are the minute and
the second. -/
theorem formatted_date_and_time (d : LocalDate) (hm : d.month < 12) (hmi : d.minutes < 60)
    (hs : d.seconds < 60) :
    MONTHS =
      ["Jan", "Feb", "Mar", "Apr", "May", "Jun", "Jul", "Aug", "Sep", "Oct", "Nov", "Dec"] ∧
    MONTHS.get? d.month = some (monthName d) ∧
    formattedDate d = monthName d ++ " " ++ toString d.day ++ ", " ++ toString d.year ∧
    formattedTime d =
      toString d.hours ++ ":" ++ String.mk (pad2 d.minutes) ++ ":"
        ++ String.mk (pad2 d.seconds) ∧
    (pad2 d.minutes).length = 2 ∧ parseDigits 0 (pad2 d.minutes) = some d.minutes ∧
    (pad2 d.seconds).length = 2 ∧ parseDigits 0 (pad2 d.seconds) = some d.seconds := by
  refine ⟨rfl, monthName_table d.month hm, rfl, ?_, rfl, parseDigits_pad2 _ (by omega), rfl,
    parseDigits_pad2 _ (by omega)⟩
  unfold formattedTime minutesText secondsText
  rw [substrLast2_padded d.minutes hmi, substrLast2_padded d.seconds hs]

theorem formatted_date_and_time_witness :
    formattedDate sampleLocalDate = "Nov 3, 2023" ∧
    formattedTime { sampleLocalDate with minutes := 5, seconds := 0 } = "8:05:00" := by
  have h1 := formatted_date_and_time sampleLocalDate (by decide) (by decide) (by decide)
  have h2 := formatted_date_and_time { sampleLocalDate with minutes := 5, seconds := 0 }
    (by decide) (by decide) (by decide)
  exact ⟨h1.2.2.1.trans (by decide), h2.2.2.2.1.trans (by decide)⟩

end TodoItem
